import Mathlib

/-!
Verification of the 2048 move/merge engine and game-state transition logic.

The definitions below are a shallow embedding of the game core
(`gameLogic.ts` and `gameState.ts`):

* JavaScript numbers that are always used as non-negative integers
  (coordinates, tile values, scores, grid sizes) are modelled as `Nat`;
  spawn probabilities (floats compared against a tolerance) are modelled
  as `ℚ`.
* The impure inputs of the engine — `Math.random()` draws and the global
  `tileIdCounter` of `generateTileId` — become explicit parameters:
  every function that consumed a random draw takes it as an argument,
  and freshly created tiles take their id as an argument.
* `Tile.mergedFrom` (animation provenance, written but never read by any
  engine logic) is omitted from the tile record.
* Fallible code (`throw`, crashes on empty tables) returns
  `Except`/`Option`.
-/

namespace Game2048

/-- A position on the board (`Cell` in the source). -/
structure Cell where
  row : Nat
  col : Nat
deriving DecidableEq, Repr

/-- A tile (`Tile` in the source); `mergedFrom` is provenance-only in the
source and never read by the engine, so it is omitted here. -/
structure Tile where
  id : Nat
  value : Nat
  position : Cell
deriving DecidableEq, Repr

/-- The four movement directions. -/
inductive Direction where
  | Up
  | Down
  | Left
  | Right
deriving DecidableEq, Repr

/-- The game status. -/
inductive GameStatus where
  | Playing
  | Won
  | Lost
deriving DecidableEq, Repr

/-- One entry of the spawn probability table. -/
structure SpawnConfig where
  value : Nat
  probability : ℚ
deriving DecidableEq, Repr

/-- The game configuration. -/
structure GameConfig where
  gridSize : Nat
  targetValue : Nat
  spawnValues : List SpawnConfig
  maxUndoStates : Option Nat
deriving DecidableEq, Repr

/-- The grid: a matrix of optional tiles (`(Tile | null)[][]`). -/
abbrev Grid := List (List (Option Tile))

/-- `createTile`: builds a tile at a position; the id produced by the
impure `generateTileId` is passed explicitly. -/
def createTile (tid : Nat) (position : Cell) (value : Nat) : Tile :=
  { id := tid, value := value, position := position }

/-- `createEmptyGrid`. -/
def createEmptyGrid (size : Nat) : Grid :=
  List.replicate size (List.replicate size (none : Option Tile))

/-- Reading `grid[row][col]`; all reads performed by the source are
in range, out-of-range reads default to an empty cell. -/
def cellAt (grid : Grid) (row col : Nat) : Option Tile :=
  (grid.getD row []).getD col none

/-- Writing `grid[row][col] = v`; all writes performed by the source are
in range, out-of-range writes are dropped. -/
def setCell (grid : Grid) (row col : Nat) (v : Option Tile) : Grid :=
  grid.set row ((grid.getD row []).set col v)

/-- `cloneGrid`: rebuilds every tile record field by field. -/
def cloneGrid (grid : Grid) : Grid :=
  grid.map fun r =>
    r.map fun tile =>
      tile.map fun t =>
        { id := t.id, value := t.value,
          position := { row := t.position.row, col := t.position.col } }

/-- `getEmptyCells`: every empty cell, row-major. -/
def getEmptyCells (grid : Grid) : List Cell :=
  grid.enum.flatMap fun rc =>
    rc.2.enum.filterMap fun cc =>
      match cc.2 with
      | none => some { row := rc.1, col := cc.1 }
      | some _ => none

/-- `getAllTiles`: every tile, row-major. -/
def getAllTiles (grid : Grid) : List Tile :=
  (grid.map fun r => r.filterMap fun t => t).flatten

/-- `selectSpawnValue`'s accumulation loop: walks the table keeping a
running `cumulative` mass and returns the first value whose cumulative
mass is reached by the draw. -/
def selectLoop (random : ℚ) : List SpawnConfig → ℚ → Option Nat
  | [], _ => none
  | config :: rest, cumulative =>
    let cumulative := cumulative + config.probability
    if random ≤ cumulative then some config.value
    else selectLoop random rest cumulative

/-- `selectSpawnValue`: the loop, then the source's fallback
`spawnValues[0].value`.  On an empty table the source would crash
(`spawnValues[0]` is `undefined`), modelled by `none`. -/
def selectSpawnValue (spawnValues : List SpawnConfig) (random : ℚ) : Option Nat :=
  match selectLoop random spawnValues 0 with
  | some v => some v
  | none => spawnValues.head?.map SpawnConfig.value

/-- `spawnRandomTile`: `rCell` models the uniform index draw
`floor(Math.random() * emptyCells.length)` (reduced mod the number of
empty cells), `random` the value draw, `tid` the fresh tile id. -/
def spawnRandomTile (grid : Grid) (spawnValues : List SpawnConfig)
    (rCell : Nat) (random : ℚ) (tid : Nat) : Option Grid :=
  let emptyCells := getEmptyCells grid
  if emptyCells.length = 0 then
    none
  else
    let newGrid := cloneGrid grid
    let randomCell := emptyCells.getD (rCell % emptyCells.length) { row := 0, col := 0 }
    match selectSpawnValue spawnValues random with
    | none => none
    | some value =>
      some (setCell newGrid randomCell.row randomCell.col
        (some (createTile tid randomCell value)))

/-- `getTraversalOrder`: the nested per-direction loops of the source,
cells closer to the target edge first. -/
def getTraversalOrder (direction : Direction) (gridSize : Nat) : List Cell :=
  match direction with
  | Direction.Up =>
    (List.range gridSize).flatMap fun col =>
      (List.range gridSize).map fun row => { row := row, col := col }
  | Direction.Down =>
    (List.range gridSize).flatMap fun col =>
      (List.range gridSize).reverse.map fun row => { row := row, col := col }
  | Direction.Left =>
    (List.range gridSize).flatMap fun row =>
      (List.range gridSize).map fun col => { row := row, col := col }
  | Direction.Right =>
    (List.range gridSize).flatMap fun row =>
      (List.range gridSize).reverse.map fun col => { row := row, col := col }

/-- `getNextCell`: one step in the given direction; the source guards the
decrementing directions (`Up`, `Left`) at the edge and leaves the
incrementing ones unguarded (they are bounds-checked by the caller). -/
def getNextCell (cell : Cell) (direction : Direction) : Option Cell :=
  match direction with
  | Direction.Up =>
    if cell.row > 0 then some { row := cell.row - 1, col := cell.col } else none
  | Direction.Down => some { row := cell.row + 1, col := cell.col }
  | Direction.Left =>
    if cell.col > 0 then some { row := cell.row, col := cell.col - 1 } else none
  | Direction.Right => some { row := cell.row, col := cell.col + 1 }

/-- `isWithinBounds` (coordinates are `Nat`, so only the upper bounds remain). -/
def isWithinBounds (cell : Cell) (gridSize : Nat) : Bool :=
  cell.row < gridSize && cell.col < gridSize

/-- The `while` loop of `findFarthestPosition`: keeps stepping while the
current cell is in bounds, empty and not a merge target of this turn.
`fuel` bounds the iteration count; the walk advances through at most
`gridSize` cells, so the callers' fuel is never exhausted. -/
def farAux (grid : Grid) (mergedCells : List Cell) (direction : Direction) :
    Nat → Cell → Option Cell → Cell × Option Cell
  | 0, previous, current =>
    (previous,
      match current with
      | some c => if isWithinBounds c grid.length then some c else none
      | none => none)
  | fuel + 1, previous, current =>
    match current with
    | none => (previous, none)
    | some c =>
      if isWithinBounds c grid.length then
        if (cellAt grid c.row c.col).isSome || mergedCells.contains c then
          (previous, some c)
        else
          farAux grid mergedCells direction fuel c (getNextCell c direction)
      else (previous, none)

/-- `findFarthestPosition`: the farthest reachable empty cell and the cell
just beyond it (`next`), when in bounds. -/
def findFarthestPosition (position : Cell) (direction : Direction)
    (grid : Grid) (mergedCells : List Cell) : Cell × Option Cell :=
  farAux grid mergedCells direction grid.length position (getNextCell position direction)

/-- The accumulator of `performMove`'s traversal loop: the grid being
built, the cells merged this turn, the merged tiles, the `moved` flag,
the score, and the next fresh tile id. -/
structure MoveState where
  g : Grid
  merged : List Cell
  mts : List Tile
  moved : Bool
  score : Nat
  nid : Nat
deriving Repr

/-- The body of `performMove`'s `for (const cell of traversalOrder)` loop. -/
def stepMove (orig : Grid) (direction : Direction) (st : MoveState) (cell : Cell) :
    MoveState :=
  match cellAt orig cell.row cell.col with
  | none => st
  | some tile =>
    let fp := findFarthestPosition cell direction st.g st.merged
    let farthest := fp.1
    let mergedTile : Option Tile :=
      match fp.2 with
      | some next =>
        match cellAt st.g next.row next.col with
        | some nextTile =>
          if nextTile.value = tile.value && !(st.merged.contains next) then
            some (createTile st.nid next (tile.value * 2))
          else none
        | none => none
      | none => none
    match fp.2, mergedTile with
    | some next, some mt =>
      { g := setCell st.g next.row next.col (some mt),
        merged := next :: st.merged,
        mts := st.mts ++ [mt],
        moved := st.moved || !(decide (next = tile.position)),
        score := st.score + tile.value * 2,
        nid := st.nid + 1 }
    | _, _ =>
      { g := setCell st.g farthest.row farthest.col
          (some { id := tile.id, value := tile.value, position := farthest }),
        merged := st.merged,
        mts := st.mts,
        moved := st.moved || !(decide (farthest = tile.position)),
        score := st.score,
        nid := st.nid }

/-- The traversal loop of `performMove`. -/
def moveLoop (orig : Grid) (direction : Direction) : List Cell → MoveState → MoveState
  | [], st => st
  | c :: cs, st => moveLoop orig direction cs (stepMove orig direction st c)

/-- The result record of `performMove`. -/
structure MoveOutcome where
  grid : Grid
  moved : Bool
  score : Nat
  mergedTiles : List Tile
deriving Repr

/-- `performMove`: slides and merges every tile in the given direction;
`tid` seeds the fresh ids of the tiles created by merging. -/
def performMove (grid : Grid) (direction : Direction) (tid : Nat) : MoveOutcome :=
  let st := moveLoop grid direction (getTraversalOrder direction grid.length)
    { g := createEmptyGrid grid.length, merged := [], mts := [],
      moved := false, score := 0, nid := tid }
  { grid := st.g, moved := st.moved, score := st.score, mergedTiles := st.mts }

/-- `hasMovesAvailable`: an empty cell exists or two orthogonal neighbours
share a value.  The source builds neighbour coordinates that may be `-1`,
rejected by `isWithinBounds`; they are built in `Int` here and checked
the same way. -/
def hasMovesAvailable (grid : Grid) : Bool :=
  let gridSize := grid.length
  if (getEmptyCells grid).length > 0 then true
  else
    (List.range gridSize).any fun row =>
      (List.range gridSize).any fun col =>
        match cellAt grid row col with
        | none => false
        | some tile =>
          let adjacentCells : List (Int × Int) :=
            [((row : Int) - 1, (col : Int)), ((row : Int) + 1, (col : Int)),
              ((row : Int), (col : Int) - 1), ((row : Int), (col : Int) + 1)]
          adjacentCells.any fun adj =>
            if 0 ≤ adj.1 && adj.1 < (gridSize : Int) && 0 ≤ adj.2 && adj.2 < (gridSize : Int) then
              match cellAt grid adj.1.toNat adj.2.toNat with
              | some adjTile => adjTile.value = tile.value
              | none => false
            else false

/-- `hasWon`: some tile has reached the target value. -/
def hasWon (grid : Grid) (targetValue : Nat) : Bool :=
  (getAllTiles grid).any fun tile => targetValue ≤ tile.value

/-- `determineGameStatus`: sticky `Won`, then win check, then loss check.
The source declares exactly these three parameters; the extra
`wonAndContinued` argument that `move` passes is not declared and is
ignored (JavaScript call semantics). -/
def determineGameStatus (grid : Grid) (targetValue : Nat)
    (currentStatus : GameStatus) : GameStatus :=
  if currentStatus = GameStatus.Won then GameStatus.Won
  else if hasWon grid targetValue then GameStatus.Won
  else if !(hasMovesAvailable grid) then GameStatus.Lost
  else GameStatus.Playing

/-- `validateGameConfig`: accumulates every violated constraint.
`Number.isInteger` checks are vacuous for `Nat`-modelled fields, and the
non-positivity checks on them degenerate to `= 0`.  JavaScript's `&`
coerces both operands through ToInt32, i.e. it operates on the low 32
bits; the power-of-two check therefore reduces each operand mod `2 ^ 32`
before the bitwise and.  (For `targetValue = 0` the source computes
`0 & 0xFFFFFFFF = 0` and the model `0 &&& 0 = 0` — same verdict.) -/
def validateGameConfig (config : GameConfig) : List String :=
  let errors : List String := []
  let errors := errors ++
    (if config.gridSize < 3 || config.gridSize > 6 then
      ["Grid size must be between 3 and 6"] else [])
  let errors := errors ++
    (if config.targetValue = 0 then
      ["Target value must be a positive integer"] else [])
  let errors := errors ++
    (if (config.targetValue % 2 ^ 32) &&& ((config.targetValue - 1) % 2 ^ 32) ≠ 0 then
      ["Target value should be a power of 2"] else [])
  let errors := errors ++
    (if config.spawnValues.length = 0 then
      ["At least one spawn value must be configured"]
    else
      let totalProbability := (config.spawnValues.map SpawnConfig.probability).sum
      (if |totalProbability - 1| > 1 / 1000 then
        ["Spawn value probabilities must sum to 1.0"] else []) ++
      config.spawnValues.flatMap fun sv =>
        (if sv.value = 0 then ["Spawn values must be positive integers"] else []) ++
        (if sv.probability < 0 || sv.probability > 1 then
          ["Spawn probabilities must be between 0 and 1"] else []))
  errors

/-- The complete game state.  The source's `GameState` type omits
`wonAndContinued`, but `gameState.ts` reads and writes it; an initial
state leaves it `undefined` (falsy), modelled as `false`. -/
structure GameState where
  grid : Grid
  score : Nat
  status : GameStatus
  previousStates : List GameState
  config : GameConfig
  moveCount : Nat
  wonAndContinued : Bool

/-- Result of `move`. -/
structure MoveResult where
  newState : GameState
  moved : Bool
  score : Nat
  mergedTiles : List Tile

/-- `cloneGameState` with `includePreviousStates = false` — the only
instantiation the engine uses (`move` pushing a history entry). -/
def cloneGameState (state : GameState) : GameState :=
  { grid := cloneGrid state.grid,
    score := state.score,
    status := state.status,
    previousStates := [],
    config := state.config,
    moveCount := state.moveCount,
    wonAndContinued := state.wonAndContinued }

/-- The history trim bound `state.config.maxUndoStates || 10`: a missing
or zero (falsy) `maxUndoStates` falls back to `10`. -/
def undoLimit (config : GameConfig) : Nat :=
  match config.maxUndoStates with
  | some m => if m = 0 then 10 else m
  | none => 10

/-- `initializeGame`: validates the config, builds an empty grid and
spawns two tiles.  The randomness of the two spawns and their fresh ids
are explicit parameters; `throw` becomes `Except.error`. -/
def initializeGame (config : GameConfig)
    (rc1 : Nat) (rv1 : ℚ) (tid1 : Nat)
    (rc2 : Nat) (rv2 : ℚ) (tid2 : Nat) : Except String GameState :=
  let errors := validateGameConfig config
  if errors.length > 0 then
    Except.error ("Invalid game configuration: " ++ String.intercalate ", " errors)
  else
    let grid := createEmptyGrid config.gridSize
    match spawnRandomTile grid config.spawnValues rc1 rv1 tid1 with
    | none => Except.error "Failed to spawn first tile"
    | some gridWithFirstTile =>
      match spawnRandomTile gridWithFirstTile config.spawnValues rc2 rv2 tid2 with
      | none => Except.error "Failed to spawn second tile"
      | some gridWithSecondTile =>
        Except.ok
          { grid := gridWithSecondTile,
            score := 0,
            status := GameStatus.Playing,
            previousStates := [],
            config := config,
            moveCount := 0,
            wonAndContinued := false }

/-- `move`: one full turn.  `rc`/`rv` are the spawn draws, `tidM` seeds
the merged-tile ids and `tidS` the spawned tile's id.  The source passes
`state.wonAndContinued` as a fourth argument to `determineGameStatus`,
which declares only three parameters and ignores it. -/
def move (state : GameState) (direction : Direction)
    (rc : Nat) (rv : ℚ) (tidM tidS : Nat) : MoveResult :=
  if state.status = GameStatus.Lost then
    { newState := state, moved := false, score := 0, mergedTiles := [] }
  else
    let pm := performMove state.grid direction tidM
    if !pm.moved then
      { newState := state, moved := false, score := 0, mergedTiles := [] }
    else
      match spawnRandomTile pm.grid state.config.spawnValues rc rv tidS with
      | none =>
        { newState := state, moved := false, score := 0, mergedTiles := [] }
      | some gridWithNewTile =>
        let newScore := state.score + pm.score
        let newStatus :=
          determineGameStatus gridWithNewTile state.config.targetValue state.status
        let stateCopy := cloneGameState state
        let previousStates :=
          (stateCopy :: state.previousStates).take (undoLimit state.config)
        { newState :=
            { grid := gridWithNewTile,
              score := newScore,
              status := newStatus,
              previousStates := previousStates,
              config := state.config,
              moveCount := state.moveCount + 1,
              wonAndContinued := state.wonAndContinued },
          moved := true,
          score := pm.score,
          mergedTiles := pm.mergedTiles }

/-- `undo`: pops the most recent history entry, reattaching the rest of
the stack; no-op on empty history. -/
def undo (state : GameState) : GameState :=
  match state.previousStates with
  | [] => state
  | previousState :: rest =>
    { previousState with previousStates := rest }

/-- `continueAfterWin`: no-op unless `Won`; flips the status back to
`Playing` and records `wonAndContinued`. -/
def continueAfterWin (state : GameState) : GameState :=
  if state.status ≠ GameStatus.Won then state
  else
    { state with status := GameStatus.Playing, wonAndContinued := true }

/-- `canUndo`. -/
def canUndo (state : GameState) : Bool :=
  state.previousStates.length > 0

/-! ### Trajectory helpers (not part of the source)

The source keeps the current `GameState` in the UI layer and feeds each
key press to `move`; arbitrary play is modelled as a list of move inputs
(direction plus the impure draws consumed by that turn). -/

/-- The inputs of one `move` call: a direction plus this turn's random
draws and fresh ids. -/
structure MoveInput where
  dir : Direction
  rc : Nat
  rv : ℚ
  tidM : Nat
  tidS : Nat

/-- The state after one `move` call. -/
def stepState (s : GameState) (i : MoveInput) : GameState :=
  (move s i.dir i.rc i.rv i.tidM i.tidS).newState

/-- Play a list of moves in order. -/
def playMoves : GameState → List MoveInput → GameState
  | s, [] => s
  | s, i :: rest => playMoves (stepState s i) rest

/-- Every move of the list reports `moved = true` ("successful moves"). -/
def allMoved : GameState → List MoveInput → Bool
  | _, [] => true
  | s, i :: rest => (move s i.dir i.rc i.rv i.tidM i.tidS).moved && allMoved (stepState s i) rest

/-- The pre-move states of a trajectory, oldest first. -/
def trajStates : GameState → List MoveInput → List GameState
  | _, [] => []
  | s, i :: rest => s :: trajStates (stepState s i) rest

/-- `undo` applied `n` times. -/
def undoIter : Nat → GameState → GameState
  | 0, s => s
  | n + 1, s => undoIter n (undo s)

/-! ### Invariants and measures used by the claims -/

/-- The values of every tile on the grid, row-major. -/
def gridValues (grid : Grid) : List Nat :=
  (getAllTiles grid).map Tile.value

/-- The value stored in one cell (`0` for an empty cell). -/
def valO : Option Tile → Nat
  | none => 0
  | some t => t.value

/-- Total of all tile values on the grid. -/
def sumGrid (grid : Grid) : Nat :=
  (grid.map fun row => (row.map valO).sum).sum

/-- The grid structural invariant: the matrix is square, and every
tile's stored `position` equals its matrix location.  (The matrix
representation itself already enforces "at most one tile per cell".) -/
def gridWF (grid : Grid) : Bool :=
  (grid.all fun row => row.length = grid.length) &&
    (List.range grid.length).all fun r =>
      (List.range grid.length).all fun c =>
        match cellAt grid r c with
        | none => true
        | some t => t.position = { row := r, col := c }

/-- Squareness of the matrix: `n` rows, each of length `n`. -/
def dimsEq (n : Nat) (grid : Grid) : Prop :=
  grid.length = n ∧ ∀ row ∈ grid, row.length = n

/-- The position part of the grid invariant as a proposition. -/
def posWF (grid : Grid) : Prop :=
  ∀ r c t, cellAt grid r c = some t → t.position = { row := r, col := c }

/-- The multiset of the values in one row. -/
def msetRow (row : List (Option Tile)) : Multiset Nat :=
  ((row.filterMap fun t => t).map Tile.value : List Nat)

/-- The multiset of all tile values on the grid. -/
def msetGrid (grid : Grid) : Multiset Nat :=
  (gridValues grid : List Nat)

/-- The multiset of the value in one cell. -/
def mvalO : Option Tile → Multiset Nat
  | none => 0
  | some t => {t.value}

/-- The line a cell belongs to for a direction (movement never leaves it). -/
def lineIdx : Direction → Cell → Nat
  | Direction.Up, c => c.col
  | Direction.Down, c => c.col
  | Direction.Left, c => c.row
  | Direction.Right, c => c.row

/-- Distance of a cell from the target edge of a direction; the traversal
order enumerates each line by increasing distance, and tiles only move
toward smaller distances. -/
def posIdx : Direction → Nat → Cell → Nat
  | Direction.Up, _, c => c.row
  | Direction.Down, size, c => size - 1 - c.row
  | Direction.Left, _, c => c.col
  | Direction.Right, size, c => size - 1 - c.col

/-- The cell of line `l` at distance `j` from the target edge. -/
def cellOf : Direction → Nat → Nat → Nat → Cell
  | Direction.Up, _, l, j => { row := j, col := l }
  | Direction.Down, size, l, j => { row := size - 1 - j, col := l }
  | Direction.Left, _, l, j => { row := l, col := j }
  | Direction.Right, size, l, j => { row := l, col := size - 1 - j }

/-- Order on traversal cells: a cell strictly precedes every later cell
of its own line. -/
def travBefore (d : Direction) (n : Nat) (a b : Cell) : Prop :=
  lineIdx d a = lineIdx d b → posIdx d n a < posIdx d n b

/-! ### Spec-side definitions (written from the spec, for refinement
claims) -/

/-- Modelled from the spec (§4.6 Config Validator): the conjunction of
every constraint a valid `GameConfig` must satisfy. -/
def validConfigSpec (config : GameConfig) : Prop :=
  3 ≤ config.gridSize ∧ config.gridSize ≤ 6 ∧
  0 < config.targetValue ∧ (∃ k, config.targetValue = 2 ^ k) ∧
  config.spawnValues ≠ [] ∧
  (∀ sv ∈ config.spawnValues, 0 < sv.value) ∧
  (∀ sv ∈ config.spawnValues, 0 ≤ sv.probability ∧ sv.probability ≤ 1) ∧
  |(config.spawnValues.map SpawnConfig.probability).sum - 1| ≤ 1 / 1000

/-- `validConfigSpec` with the power-of-two constraint amended to what
the code enforces: JavaScript's `&` wraps both operands at 32 bits, so
the check only sees the low 32 bits of `targetValue` — it passes when
those bits are zero or form a power of two. -/
def validConfigSpec32 (config : GameConfig) : Prop :=
  3 ≤ config.gridSize ∧ config.gridSize ≤ 6 ∧
  0 < config.targetValue ∧
  (config.targetValue % 2 ^ 32 = 0 ∨ ∃ k, config.targetValue % 2 ^ 32 = 2 ^ k) ∧
  config.spawnValues ≠ [] ∧
  (∀ sv ∈ config.spawnValues, 0 < sv.value) ∧
  (∀ sv ∈ config.spawnValues, 0 ≤ sv.probability ∧ sv.probability ≤ 1) ∧
  |(config.spawnValues.map SpawnConfig.probability).sum - 1| ≤ 1 / 1000

/-- Cumulative probability mass of the first `k` spawn entries. -/
def prefixSum (spawnValues : List SpawnConfig) (k : Nat) : ℚ :=
  ((spawnValues.take k).map SpawnConfig.probability).sum

/-! ### Concrete states used by counterexamples and witnesses -/

/-- A placed tile literal. -/
def tileAt (r c v : Nat) : Option Tile :=
  some { id := 100 * r + c, value := v, position := { row := r, col := c } }

/-- The default configuration (`DEFAULT_GAME_CONFIG`). -/
def DEFAULT_GAME_CONFIG : GameConfig :=
  { gridSize := 4, targetValue := 2048,
    spawnValues := [{ value := 2, probability := 9 / 10 },
                    { value := 4, probability := 1 / 10 }],
    maxUndoStates := some 10 }

/-- A 4×4 grid holding the row `[2, 2, null, null]`. -/
def demoGridPair : Grid :=
  [[tileAt 0 0 2, tileAt 0 1 2, none, none],
   [none, none, none, none],
   [none, none, none, none],
   [none, none, none, none]]

/-- A 4×4 grid holding the row `[2, 2, 2, null]`. -/
def demoGridTriple : Grid :=
  [[tileAt 0 0 2, tileAt 0 1 2, tileAt 0 2 2, none],
   [none, none, none, none],
   [none, none, none, none],
   [none, none, none, none]]

/-- A valid configuration whose `maxUndoStates` is set to `0`. -/
def demoCfgZero : GameConfig :=
  { gridSize := 4, targetValue := 2048,
    spawnValues := [{ value := 2, probability := 1 }],
    maxUndoStates := some 0 }

/-- A valid configuration whose `maxUndoStates` is set to `2`. -/
def demoCfgTwo : GameConfig :=
  { gridSize := 4, targetValue := 2048,
    spawnValues := [{ value := 2, probability := 1 }],
    maxUndoStates := some 2 }

/-- A 4×4 grid with a 2048 tile and a slidable 2. -/
def demoGridWon : Grid :=
  [[tileAt 0 0 2048, none, tileAt 0 2 2, none],
   [none, none, none, none],
   [none, none, none, none],
   [none, none, none, none]]

/-- A won game about to be continued. -/
def demoWonState : GameState :=
  { grid := demoGridWon, score := 100, status := GameStatus.Won,
    previousStates := [], config := demoCfgTwo, moveCount := 5,
    wonAndContinued := false }

/-- Fallback state for total projections out of `Except`. -/
def dummyState : GameState :=
  { grid := [], score := 0, status := GameStatus.Playing, previousStates := [],
    config := { gridSize := 0, targetValue := 0, spawnValues := [], maxUndoStates := none },
    moveCount := 0, wonAndContinued := false }

/-- The grid `initializeGame` builds from draw indexes 0/0 and tile ids
1/2 on an empty 4×4 board: a 2 at (0,0) and a 2 at (0,1). -/
def demoInitGrid : Grid :=
  [[some { id := 1, value := 2, position := { row := 0, col := 0 } },
    some { id := 2, value := 2, position := { row := 0, col := 1 } }, none, none],
   [none, none, none, none],
   [none, none, none, none],
   [none, none, none, none]]

/-- The state `initializeGame demoCfgZero 0 0 1 0 0 2` produces. -/
def demoInitZero : GameState :=
  { grid := demoInitGrid, score := 0, status := GameStatus.Playing,
    previousStates := [], config := demoCfgZero, moveCount := 0,
    wonAndContinued := false }

/-- The state `initializeGame demoCfgTwo 0 0 1 0 0 2` produces. -/
def demoInitTwo : GameState :=
  { grid := demoInitGrid, score := 0, status := GameStatus.Playing,
    previousStates := [], config := demoCfgTwo, moveCount := 0,
    wonAndContinued := false }

/-- The invalid configuration of the config-validation claim. -/
def demoCfgBad : GameConfig :=
  { gridSize := 2, targetValue := 100, spawnValues := [], maxUndoStates := none }

/-- A configuration whose `targetValue` is `3 * 2 ^ 31 = 6442450944`:
not a power of two, but its low 32 bits are `2 ^ 31`, so the 32-bit
bitwise check accepts it. -/
def demoCfgWrap : GameConfig :=
  { gridSize := 4, targetValue := 6442450944,
    spawnValues := [{ value := 2, probability := 1 }],
    maxUndoStates := none }

/-- A 4×4 grid whose only tile sits in the top-left corner. -/
def demoGridCorner : Grid :=
  [[tileAt 0 0 2, none, none, none],
   [none, none, none, none],
   [none, none, none, none],
   [none, none, none, none]]

/-- A state in which moving Left cannot slide or merge anything. -/
def demoCornerState : GameState :=
  { grid := demoGridCorner, score := 0, status := GameStatus.Playing,
    previousStates := [], config := DEFAULT_GAME_CONFIG, moveCount := 0,
    wonAndContinued := false }

/-- A single concrete move input used by witnesses. -/
def demoInput : MoveInput :=
  { dir := Direction.Left, rc := 0, rv := 0, tidM := 10, tidS := 11 }

/-- What the farthest-position walk guarantees: the farthest cell stays
in bounds and on the starting cell's line, no farther from the target
edge than the start, it is the start itself or an empty unmerged cell,
and the `next` cell (when present) is in bounds and one step beyond. -/
def farSpec (g : Grid) (merged : List Cell) (d : Direction) (position : Cell)
    (r : Cell × Option Cell) : Prop :=
  (r.1.row < g.length ∧ r.1.col < g.length) ∧
  lineIdx d r.1 = lineIdx d position ∧
  posIdx d g.length r.1 ≤ posIdx d g.length position ∧
  (r.1 = position ∨ (cellAt g r.1.row r.1.col = none ∧ merged.contains r.1 = false)) ∧
  (∀ nc, r.2 = some nc →
    (nc.row < g.length ∧ nc.col < g.length) ∧ getNextCell r.1 d = some nc)

/-! ## Basic list and grid lemmas -/

theorem getD_set_self {α} (l : List α) (i : Nat) (v d : α) (h : i < l.length) :
    (l.set i v).getD i d = v := by
  simp [List.getD_eq_getElem?_getD, List.getElem?_set, h]

theorem getD_set_ne {α} (l : List α) (i j : Nat) (v d : α) (h : i ≠ j) :
    (l.set i v).getD j d = l.getD j d := by
  simp [List.getD_eq_getElem?_getD, List.getElem?_set, h]

theorem getD_oob {α} (l : List α) (i : Nat) (d : α) (h : l.length ≤ i) :
    l.getD i d = d := by
  simp [List.getD_eq_getElem?_getD, List.getElem?_eq_none h]

theorem set_getD_self {α} (l : List α) (i : Nat) (d : α) :
    l.set i (l.getD i d) = l := by
  apply List.ext_getElem?
  intro j
  rcases Nat.lt_or_ge i l.length with h | h
  · rw [List.getElem?_set]
    split
    · next he =>
      subst he
      rw [List.getD_eq_getElem?_getD, List.getElem?_eq_getElem h]
      simp [h]
    · rfl
  · rw [List.set_eq_of_length_le h]

theorem length_setCell (g : Grid) (r c : Nat) (v : Option Tile) :
    (setCell g r c v).length = g.length := by
  simp [setCell]

theorem getD_mem_of_lt {α} (l : List α) (i : Nat) (d : α) (h : i < l.length) :
    l.getD i d ∈ l := by
  rw [List.getD_eq_getElem?_getD, List.getElem?_eq_getElem h]
  exact List.getElem_mem h

theorem dimsEq_setCell {n : Nat} {g : Grid} (hd : dimsEq n g) (r c : Nat) (v : Option Tile) :
    dimsEq n (setCell g r c v) := by
  obtain ⟨hlen, hrows⟩ := hd
  rcases Nat.lt_or_ge r g.length with hr | hr
  · refine ⟨by simp [setCell, hlen], ?_⟩
    intro row hrow
    rcases List.mem_or_eq_of_mem_set hrow with h | h
    · exact hrows row h
    · subst h
      have h2 : ((g.getD r []).set c v).length = (g.getD r []).length := by simp
      rw [h2]
      exact hrows _ (getD_mem_of_lt _ _ _ hr)
  · unfold setCell
    rw [List.set_eq_of_length_le hr]
    exact ⟨hlen, hrows⟩

theorem cellAt_setCell_self {g : Grid} {r c : Nat} (v : Option Tile)
    (hr : r < g.length) (hc : c < (g.getD r []).length) :
    cellAt (setCell g r c v) r c = v := by
  unfold cellAt setCell
  rw [getD_set_self _ _ _ _ (by simpa using hr), getD_set_self _ _ _ _ hc]

theorem cellAt_setCell_ne {g : Grid} {r c r' c' : Nat} (v : Option Tile)
    (h : ¬(r = r' ∧ c = c')) :
    cellAt (setCell g r c v) r' c' = cellAt g r' c' := by
  unfold cellAt setCell
  by_cases hr : r = r'
  · subst hr
    have hc : c ≠ c' := fun he => h ⟨rfl, he⟩
    rcases Nat.lt_or_ge r g.length with hrl | hrl
    · rw [getD_set_self _ _ _ _ (by simpa using hrl), getD_set_ne _ _ _ _ _ hc]
    · rw [List.set_eq_of_length_le (by simpa using hrl)]
  · rw [getD_set_ne _ _ _ _ _ hr]

theorem cellAt_oob {g : Grid} {n : Nat} (hd : dimsEq n g) (r c : Nat)
    (h : ¬(r < n ∧ c < n)) : cellAt g r c = none := by
  obtain ⟨hlen, hrows⟩ := hd
  unfold cellAt
  rcases Nat.lt_or_ge r g.length with hr | hr
  · have hmem : g.getD r [] ∈ g := by
      rw [List.getD_eq_getElem?_getD, List.getElem?_eq_getElem hr]
      exact List.getElem_mem hr
    have hcl : (g.getD r []).length = n := hrows _ hmem
    have hc : n ≤ c := by omega
    rw [getD_oob _ _ _ (by omega)]
  · rw [getD_oob _ _ _ hr]
    rfl

theorem cellAt_createEmptyGrid (n r c : Nat) :
    cellAt (createEmptyGrid n) r c = none := by
  unfold cellAt createEmptyGrid
  have h1 : ((List.replicate n (List.replicate n (none : Option Tile))).getD r []) =
      if r < n then List.replicate n (none : Option Tile) else [] := by
    simp [List.getD_eq_getElem?_getD, List.getElem?_replicate]
    split <;> rfl
  rw [h1]
  split
  · simp [List.getD_eq_getElem?_getD, List.getElem?_replicate]
    split <;> rfl
  · rfl

theorem dimsEq_createEmptyGrid (n : Nat) : dimsEq n (createEmptyGrid n) := by
  constructor
  · simp [createEmptyGrid]
  · intro row hrow
    rw [List.eq_of_mem_replicate hrow]
    simp

/-! ## Sum and multiset accounting for `setCell` -/

theorem row_sum_set (l : List (Option Tile)) :
    ∀ (c : Nat) (v : Option Tile), c < l.length →
      ((l.set c v).map valO).sum + valO (l.getD c none) = (l.map valO).sum + valO v := by
  induction l with
  | nil => intro c v h; simp at h
  | cons x xs ih =>
    intro c v h
    cases c with
    | zero => simp [List.set]; omega
    | succ c =>
      simp only [List.set, List.map_cons, List.sum_cons, List.getD_cons_succ]
      have := ih c v (by simpa using h)
      omega

theorem grid_sum_set (gs : List (List (Option Tile))) :
    ∀ (r : Nat), r < gs.length → ∀ (x : List (Option Tile)),
      ((gs.set r x).map fun rw => (rw.map valO).sum).sum + ((gs.getD r []).map valO).sum =
        (gs.map fun rw => (rw.map valO).sum).sum + (x.map valO).sum := by
  induction gs with
  | nil => intro r h; simp at h
  | cons y ys ih =>
    intro r h x
    cases r with
    | zero => simp [List.set]; omega
    | succ r =>
      simp only [List.set, List.map_cons, List.sum_cons, List.getD_cons_succ]
      have := ih r (by simpa using h) x
      omega

theorem sumGrid_setCell {g : Grid} {n : Nat} (hd : dimsEq n g) {r c : Nat}
    (hr : r < n) (hc : c < n) (v : Option Tile) :
    sumGrid (setCell g r c v) + valO (cellAt g r c) = sumGrid g + valO v := by
  obtain ⟨hlen, hrows⟩ := hd
  have hrg : r < g.length := by omega
  have hrowlen : (g.getD r []).length = n := hrows _ (getD_mem_of_lt _ _ _ hrg)
  have key := grid_sum_set g r hrg ((g.getD r []).set c v)
  have hrow := row_sum_set (g.getD r []) c v (by omega)
  unfold sumGrid setCell cellAt
  unfold sumGrid at key
  omega

theorem row_mset_set (l : List (Option Tile)) :
    ∀ (c : Nat) (t : Tile), c < l.length → l.getD c none = none →
      msetRow (l.set c (some t)) = t.value ::ₘ msetRow l := by
  induction l with
  | nil => intro c t h; simp at h
  | cons x xs ih =>
    intro c t h he
    cases c with
    | zero =>
      rw [List.getD_cons_zero] at he
      subst he
      simp [msetRow, List.set, List.filterMap_cons]
    | succ c =>
      rw [List.getD_cons_succ] at he
      have hx := ih c t (by simpa using h) he
      cases x with
      | none => simpa [msetRow, List.set, List.filterMap_cons] using hx
      | some u =>
        simp only [List.set, msetRow, List.filterMap_cons, List.map_cons] at hx ⊢
        rw [← Multiset.cons_coe, ← Multiset.cons_coe, hx, Multiset.cons_swap]

theorem coe_flatten_sum (L : List (List Nat)) :
    ((L.flatten : List Nat) : Multiset Nat) = (L.map fun l => ((l : List Nat) : Multiset Nat)).sum := by
  induction L with
  | nil => rfl
  | cons x xs ih =>
    have hc : ((x ++ xs.flatten : List Nat) : Multiset Nat) =
        (x : Multiset Nat) + (xs.flatten : Multiset Nat) := by exact_mod_cast rfl
    simp [List.flatten_cons, hc, ih]

theorem msetGrid_eq_sum (g : Grid) : msetGrid g = (g.map msetRow).sum := by
  unfold msetGrid gridValues getAllTiles
  rw [List.map_flatten, coe_flatten_sum, List.map_map, List.map_map]
  rfl

theorem grid_mset_set (gs : List (List (Option Tile))) :
    ∀ (r : Nat), r < gs.length → ∀ (x : List (Option Tile)),
      ((gs.set r x).map msetRow).sum + msetRow (gs.getD r []) =
        (gs.map msetRow).sum + msetRow x := by
  induction gs with
  | nil => intro r h; simp at h
  | cons y ys ih =>
    intro r h x
    cases r with
    | zero =>
      simp only [List.set, List.map_cons, List.sum_cons, List.getD_cons_zero]
      abel
    | succ r =>
      simp only [List.set, List.map_cons, List.sum_cons, List.getD_cons_succ]
      have h2 := ih r (by simpa using h) x
      calc msetRow y + ((ys.set r x).map msetRow).sum + msetRow (ys.getD r []) =
            msetRow y + (((ys.set r x).map msetRow).sum + msetRow (ys.getD r [])) := by abel
        _ = msetRow y + ((ys.map msetRow).sum + msetRow x) := by rw [h2]
        _ = msetRow y + (ys.map msetRow).sum + msetRow x := by abel

theorem msetGrid_setCell_empty {g : Grid} {n : Nat} (hd : dimsEq n g) {r c : Nat}
    (hr : r < n) (hc : c < n) (t : Tile) (he : cellAt g r c = none) :
    msetGrid (setCell g r c (some t)) = t.value ::ₘ msetGrid g := by
  obtain ⟨hlen, hrows⟩ := hd
  have hrg : r < g.length := by omega
  have hrowlen : (g.getD r []).length = n := hrows _ (getD_mem_of_lt _ _ _ hrg)
  have key := grid_mset_set g r hrg ((g.getD r []).set c (some t))
  have hrow := row_mset_set (g.getD r []) c t (by omega) he
  rw [msetGrid_eq_sum, msetGrid_eq_sum]
  unfold setCell
  rw [hrow] at key
  have key2 : ((g.set r ((g.getD r []).set c (some t))).map msetRow).sum + msetRow (g.getD r []) =
      (t.value ::ₘ (g.map msetRow).sum) + msetRow (g.getD r []) := by
    rw [key]
    rw [← Multiset.singleton_add, ← Multiset.singleton_add]
    abel
  exact add_right_cancel key2

/-! ## Position invariant and `cloneGrid` -/

theorem posWF_setCell {g : Grid} (hw : posWF g) {r c : Nat} {v : Option Tile}
    (hv : ∀ t, v = some t → t.position = { row := r, col := c }) :
    posWF (setCell g r c v) := by
  intro r' c' t ht
  by_cases h : r = r' ∧ c = c'
  · obtain ⟨rfl, rfl⟩ := h
    rcases Nat.lt_or_ge r g.length with hr | hr
    · rcases Nat.lt_or_ge c (g.getD r []).length with hc | hc
      · rw [cellAt_setCell_self v hr hc] at ht
        exact hv t ht
      · have : setCell g r c v = g := by
          unfold setCell
          rw [List.set_eq_of_length_le hc, set_getD_self]
        rw [this] at ht
        have : cellAt g r c = none := by
          unfold cellAt
          exact getD_oob _ _ _ hc
        rw [this] at ht
        cases ht
    · have : setCell g r c v = g := by
        unfold setCell
        rw [List.set_eq_of_length_le (by omega)]
      rw [this] at ht
      exact hw _ _ _ ht
  · rw [cellAt_setCell_ne v h] at ht
    exact hw _ _ _ ht

theorem posWF_createEmptyGrid (n : Nat) : posWF (createEmptyGrid n) := by
  intro r c t ht
  rw [cellAt_createEmptyGrid] at ht
  cases ht

theorem cloneGrid_id (g : Grid) : cloneGrid g = g := by
  unfold cloneGrid
  trans (g.map id)
  · apply List.map_congr_left
    intro row _
    trans (row.map id)
    · apply List.map_congr_left
      intro x _
      cases x <;> rfl
    · exact List.map_id row
  · exact List.map_id g

/-! ## The grid invariant as a boolean check -/

theorem gridWF_iff (g : Grid) : gridWF g = true ↔ dimsEq g.length g ∧ posWF g := by
  unfold gridWF
  rw [Bool.and_eq_true, List.all_eq_true, List.all_eq_true]
  constructor
  · rintro ⟨h1, h2⟩
    have hd : dimsEq g.length g := ⟨rfl, fun row hr => by simpa using h1 row hr⟩
    refine ⟨hd, ?_⟩
    intro r c t ht
    by_cases hr : r < g.length
    · by_cases hc : c < g.length
      · have h3 := h2 r (List.mem_range.mpr hr)
        rw [List.all_eq_true] at h3
        have h4 := h3 c (List.mem_range.mpr hc)
        rw [ht] at h4
        simpa using h4
      · rw [cellAt_oob hd r c (by omega)] at ht
        cases ht
    · rw [cellAt_oob hd r c (by omega)] at ht
      cases ht
  · rintro ⟨⟨_, hrows⟩, hw⟩
    constructor
    · intro row hr
      simpa using hrows row hr
    · intro r _
      rw [List.all_eq_true]
      intro c _
      cases hcell : cellAt g r c with
      | none => simp
      | some t => simp [hw r c t hcell]

/-! ## Direction geometry -/

theorem getNextCell_spec {d : Direction} {n : Nat} {c c' : Cell}
    (h : getNextCell c d = some c') (h1 : c'.row < n) (h2 : c'.col < n) :
    lineIdx d c' = lineIdx d c ∧ posIdx d n c' + 1 = posIdx d n c := by
  obtain ⟨r0, c0⟩ := c
  obtain ⟨r1, c1⟩ := c'
  dsimp only at h1 h2
  cases d <;> simp only [getNextCell] at h
  case Up =>
    split at h
    · simp only [Option.some_inj, Cell.mk.injEq] at h
      obtain ⟨rfl, rfl⟩ := h
      exact ⟨rfl, by simp only [posIdx]; omega⟩
    · cases h
  case Down =>
    simp only [Option.some_inj, Cell.mk.injEq] at h
    obtain ⟨rfl, rfl⟩ := h
    exact ⟨rfl, show (n - 1 - (r0 + 1)) + 1 = n - 1 - r0 by omega⟩
  case Left =>
    split at h
    · simp only [Option.some_inj, Cell.mk.injEq] at h
      obtain ⟨rfl, rfl⟩ := h
      exact ⟨rfl, by simp only [posIdx]; omega⟩
    · cases h
  case Right =>
    simp only [Option.some_inj, Cell.mk.injEq] at h
    obtain ⟨rfl, rfl⟩ := h
    exact ⟨rfl, show (n - 1 - (c0 + 1)) + 1 = n - 1 - c0 by omega⟩

theorem cellOf_bounds {d : Direction} {n l j : Nat} (hl : l < n) (hj : j < n) :
    (cellOf d n l j).row < n ∧ (cellOf d n l j).col < n := by
  cases d <;> simp only [cellOf] <;> constructor <;> omega

theorem lineIdx_cellOf {d : Direction} {n l j : Nat} : lineIdx d (cellOf d n l j) = l := by
  cases d <;> rfl

theorem posIdx_cellOf {d : Direction} {n l j : Nat} (hj : j < n) :
    posIdx d n (cellOf d n l j) = j := by
  cases d <;> simp only [cellOf, posIdx] <;> omega

theorem range_reverse_map (n : Nat) :
    (List.range n).reverse = (List.range n).map (fun i => n - 1 - i) := by
  induction n with
  | zero => rfl
  | succ n ih =>
    calc (List.range (n + 1)).reverse
        = (0 :: (List.range n).map Nat.succ).reverse := by rw [← List.range_succ_eq_map]
      _ = ((List.range n).map Nat.succ).reverse ++ [0] := by rw [List.reverse_cons]
      _ = ((List.range n).reverse).map Nat.succ ++ [0] := by rw [List.map_reverse]
      _ = ((List.range n).map (fun i => n - 1 - i)).map Nat.succ ++ [0] := by rw [ih]
      _ = (List.range n).map (fun i => n + 1 - 1 - i) ++ [n + 1 - 1 - n] := by
          rw [List.map_map]
          have h0 : n + 1 - 1 - n = 0 := by omega
          rw [h0]
          apply congrArg (· ++ ([0] : List Nat))
          apply List.map_congr_left
          intro a ha
          rw [List.mem_range] at ha
          simp only [Function.comp_apply]
          omega
      _ = ((List.range n) ++ [n]).map (fun i => n + 1 - 1 - i) := by
          rw [List.map_append]
          rfl
      _ = (List.range (n + 1)).map (fun i => n + 1 - 1 - i) := by rw [← List.range_succ]

theorem traversal_eq (d : Direction) (n : Nat) :
    getTraversalOrder d n =
      (List.range n).flatMap fun l => (List.range n).map (cellOf d n l) := by
  cases d
  case Up => rfl
  case Left => rfl
  case Down =>
    show ((List.range n).flatMap fun col =>
        (List.range n).reverse.map fun row => ({ row := row, col := col } : Cell)) =
      (List.range n).flatMap fun l => (List.range n).map (cellOf Direction.Down n l)
    congr 1
    funext l
    rw [range_reverse_map, List.map_map]
    rfl
  case Right =>
    show ((List.range n).flatMap fun row =>
        (List.range n).reverse.map fun col => ({ row := row, col := col } : Cell)) =
      (List.range n).flatMap fun l => (List.range n).map (cellOf Direction.Right n l)
    congr 1
    funext l
    rw [range_reverse_map, List.map_map]
    rfl

theorem traversal_mem_bounds {d : Direction} {n : Nat} {x : Cell}
    (hx : x ∈ getTraversalOrder d n) : x.row < n ∧ x.col < n := by
  rw [traversal_eq, List.mem_flatMap] at hx
  obtain ⟨l, hl, hx⟩ := hx
  rw [List.mem_range] at hl
  rw [List.mem_map] at hx
  obtain ⟨j, hj, rfl⟩ := hx
  rw [List.mem_range] at hj
  exact cellOf_bounds hl hj

theorem pairwise_flatMap_range {β} (R : β → β → Prop) {n : Nat} {f : Nat → List β}
    (h1 : ∀ l, List.Pairwise R (f l))
    (h2 : ∀ l1 l2, l1 < l2 → ∀ a ∈ f l1, ∀ b ∈ f l2, R a b) :
    List.Pairwise R ((List.range n).flatMap f) := by
  induction n with
  | zero => simp
  | succ n ih =>
    rw [List.range_succ, List.flatMap_append, List.pairwise_append]
    refine ⟨ih, by simpa using h1 n, ?_⟩
    intro a ha b hb
    rw [List.mem_flatMap] at ha
    obtain ⟨l, hl, hal⟩ := ha
    rw [List.mem_range] at hl
    simp only [List.flatMap_cons, List.flatMap_nil, List.append_nil] at hb
    exact h2 l n hl a hal b hb

theorem traversal_pairwise (d : Direction) (n : Nat) :
    List.Pairwise (travBefore d n) (getTraversalOrder d n) := by
  rw [traversal_eq]
  apply pairwise_flatMap_range
  · intro l
    rw [List.pairwise_iff_getElem]
    intro i j hi hj hij
    simp only [List.length_map, List.length_range] at hi hj
    have hgi : ((List.range n).map (cellOf d n l))[i] = cellOf d n l i := by
      simp
    have hgj : ((List.range n).map (cellOf d n l))[j] = cellOf d n l j := by
      simp
    rw [hgi, hgj]
    intro _
    rw [posIdx_cellOf hi, posIdx_cellOf hj]
    exact hij
  · intro l1 l2 hlt a ha b hb
    rw [List.mem_map] at ha hb
    obtain ⟨i, _, rfl⟩ := ha
    obtain ⟨j, _, rfl⟩ := hb
    intro hline
    rw [lineIdx_cellOf, lineIdx_cellOf] at hline
    omega

/-! ## The farthest-position walk -/

theorem farAux_spec (g : Grid) (merged : List Cell) (d : Direction) (position : Cell) :
    ∀ (fuel : Nat) (prev : Cell),
      prev.row < g.length → prev.col < g.length →
      lineIdx d prev = lineIdx d position →
      posIdx d g.length prev ≤ posIdx d g.length position →
      (prev = position ∨ (cellAt g prev.row prev.col = none ∧ merged.contains prev = false)) →
      farSpec g merged d position (farAux g merged d fuel prev (getNextCell prev d)) := by
  intro fuel
  induction fuel with
  | zero =>
    intro prev h1 h2 h3 h4 h5
    cases hcur : getNextCell prev d with
    | none =>
      refine ⟨⟨h1, h2⟩, h3, h4, h5, ?_⟩
      intro nc hnc
      simp only [farAux] at hnc
      cases hnc
    | some c =>
      refine ⟨⟨h1, h2⟩, h3, h4, h5, ?_⟩
      intro nc hnc
      simp only [farAux] at hnc
      by_cases hb : isWithinBounds c g.length = true
      · rw [if_pos hb] at hnc
        cases hnc
        have hbb := hb
        unfold isWithinBounds at hbb
        simp only [Bool.and_eq_true, decide_eq_true_eq] at hbb
        exact ⟨hbb, hcur⟩
      · rw [if_neg hb] at hnc
        cases hnc
  | succ fuel ih =>
    intro prev h1 h2 h3 h4 h5
    cases hcur : getNextCell prev d with
    | none =>
      refine ⟨⟨h1, h2⟩, h3, h4, h5, ?_⟩
      intro nc hnc
      simp only [farAux] at hnc
      cases hnc
    | some c =>
      by_cases hb : isWithinBounds c g.length = true
      · have hbb := hb
        unfold isWithinBounds at hbb
        simp only [Bool.and_eq_true, decide_eq_true_eq] at hbb
        by_cases hblock : ((cellAt g c.row c.col).isSome || merged.contains c) = true
        · have hres : farAux g merged d (fuel + 1) prev (some c) = (prev, some c) := by
            simp only [farAux, hb, if_true, hblock, if_true]
          rw [hres]
          refine ⟨⟨h1, h2⟩, h3, h4, h5, ?_⟩
          intro nc hnc
          cases hnc
          exact ⟨hbb, hcur⟩
        · have hres : farAux g merged d (fuel + 1) prev (some c) =
              farAux g merged d fuel c (getNextCell c d) := by
            simp only [farAux, hb, if_true, hblock]
            rfl
          rw [hres]
          have hstep := getNextCell_spec (n := g.length) hcur hbb.1 hbb.2
          simp only [Bool.or_eq_true, Option.isSome_iff_exists] at hblock
          push_neg at hblock
          obtain ⟨hempty, hmerged⟩ := hblock
          have hce : cellAt g c.row c.col = none := by
            cases hco : cellAt g c.row c.col with
            | none => rfl
            | some t => exact absurd hco (by intro hh; exact (hempty t) hh)
          have hcm : merged.contains c = false := by
            cases hcm2 : merged.contains c with
            | false => rfl
            | true => exact absurd hcm2 hmerged
          exact ih c hbb.1 hbb.2 (hstep.1.trans h3) (by omega) (Or.inr ⟨hce, hcm⟩)
      · have hres : farAux g merged d (fuel + 1) prev (some c) = (prev, none) := by
          simp only [farAux, hb]
          rfl
        rw [hres]
        refine ⟨⟨h1, h2⟩, h3, h4, h5, ?_⟩
        intro nc hnc
        cases hnc

/-! ## Summing a function over the traversal order -/

theorem list_sum_range_eq {M : Type} [AddCommMonoid M] (n : Nat) (f : Nat → M) :
    ((List.range n).map f).sum = ∑ i ∈ Finset.range n, f i := rfl

theorem sum_range_swap {M : Type} [AddCommMonoid M] (F : Nat → Nat → M) (n m : Nat) :
    ((List.range n).map fun a => ((List.range m).map fun b => F a b).sum).sum =
      ((List.range m).map fun b => ((List.range n).map fun a => F a b).sum).sum := by
  simp only [list_sum_range_eq]
  exact Finset.sum_comm

theorem sum_map_flatMap {α β : Type} {M : Type} [AddCommMonoid M]
    (l : List α) (f : α → List β) (F : β → M) :
    (((l.flatMap f).map F)).sum = (l.map fun a => ((f a).map F).sum).sum := by
  induction l with
  | nil => rfl
  | cons x xs ih =>
    rw [List.flatMap_cons, List.map_append, List.sum_append, ih, List.map_cons, List.sum_cons]

theorem sum_map_reverse_range {M : Type} [AddCommMonoid M] (n : Nat) (f : Nat → M) :
    ((List.range n).map fun j => f (n - 1 - j)).sum = ((List.range n).map f).sum := by
  have h1 : (List.range n).map (fun j => f (n - 1 - j)) =
      ((List.range n).map f).reverse := by
    rw [← List.map_reverse, range_reverse_map, List.map_map]
    rfl
  rw [h1, List.sum_reverse]

theorem traversal_sum {M : Type} [AddCommMonoid M] (F : Cell → M) (d : Direction) (n : Nat) :
    ((getTraversalOrder d n).map F).sum =
      ((List.range n).map fun r => ((List.range n).map fun c =>
        F { row := r, col := c }).sum).sum := by
  rw [traversal_eq, sum_map_flatMap]
  cases d
  case Left =>
    simp only [List.map_map]
    rfl
  case Right =>
    simp only [List.map_map]
    have h1 : ∀ l : Nat, ((List.range n).map (F ∘ cellOf Direction.Right n l)).sum =
        ((List.range n).map fun c => F { row := l, col := c }).sum := by
      intro l
      have h2 : (List.range n).map (F ∘ cellOf Direction.Right n l) =
          (List.range n).map fun j => F { row := l, col := n - 1 - j } := rfl
      rw [h2, sum_map_reverse_range n (fun c => F { row := l, col := c })]
    exact congrArg List.sum (List.map_congr_left fun l _ => h1 l)
  case Up =>
    simp only [List.map_map]
    have h1 : ((List.range n).map fun l => ((List.range n).map
        (F ∘ cellOf Direction.Up n l)).sum).sum =
        ((List.range n).map fun l => ((List.range n).map fun j =>
          F { row := j, col := l }).sum).sum := rfl
    rw [h1, sum_range_swap (fun l j => F { row := j, col := l }) n n]
  case Down =>
    simp only [List.map_map]
    have h1 : ∀ l : Nat, ((List.range n).map (F ∘ cellOf Direction.Down n l)).sum =
        ((List.range n).map fun j => F { row := j, col := l }).sum := by
      intro l
      have h2 : (List.range n).map (F ∘ cellOf Direction.Down n l) =
          (List.range n).map fun j => F { row := n - 1 - j, col := l } := rfl
      rw [h2, sum_map_reverse_range n (fun j => F { row := j, col := l })]
    rw [congrArg List.sum (List.map_congr_left fun l _ => h1 l),
      sum_range_swap (fun l j => F { row := j, col := l }) n n]

theorem sum_map_eq_range {α : Type} {M : Type} [AddCommMonoid M]
    (l : List α) (f : α → M) (dflt : α) :
    (l.map f).sum = ((List.range l.length).map fun i => f (l.getD i dflt)).sum := by
  induction l with
  | nil => rfl
  | cons x xs ih =>
    rw [List.map_cons, List.sum_cons, List.length_cons, List.range_succ_eq_map,
      List.map_cons, List.sum_cons, List.getD_cons_zero, List.map_map]
    have h1 : ((List.range xs.length).map ((fun i => f ((x :: xs).getD i dflt)) ∘ Nat.succ)) =
        (List.range xs.length).map fun i => f (xs.getD i dflt) := by
      apply List.map_congr_left
      intro a _
      rfl
    rw [h1, ← ih]

theorem sumGrid_eq_double {g : Grid} {n : Nat} (hd : dimsEq n g) :
    sumGrid g = ((List.range n).map fun r => ((List.range n).map fun c =>
      valO (cellAt g r c)).sum).sum := by
  obtain ⟨hlen, hrows⟩ := hd
  unfold sumGrid
  rw [sum_map_eq_range g _ [], hlen]
  apply congrArg List.sum
  apply List.map_congr_left
  intro r hr
  rw [List.mem_range] at hr
  have hrl : (g.getD r []).length = n := hrows _ (getD_mem_of_lt _ _ _ (by omega))
  rw [sum_map_eq_range (g.getD r []) valO none, hrl]
  rfl

theorem msetRow_eq_range (row : List (Option Tile)) :
    msetRow row = ((List.range row.length).map fun c => mvalO (row.getD c none)).sum := by
  induction row with
  | nil => rfl
  | cons x xs ih =>
    rw [List.length_cons, List.range_succ_eq_map, List.map_cons, List.sum_cons,
      List.getD_cons_zero, List.map_map]
    have h1 : ((List.range xs.length).map ((fun c => mvalO ((x :: xs).getD c none)) ∘ Nat.succ)) =
        (List.range xs.length).map fun c => mvalO (xs.getD c none) := by
      apply List.map_congr_left
      intro a _
      rfl
    rw [h1, ← ih]
    cases x with
    | none =>
      simp only [mvalO, msetRow, List.filterMap_cons]
      rw [zero_add]
    | some t =>
      simp only [mvalO, msetRow, List.filterMap_cons, List.map_cons]
      rw [← Multiset.cons_coe, ← Multiset.singleton_add]

theorem msetGrid_eq_double {g : Grid} {n : Nat} (hd : dimsEq n g) :
    msetGrid g = ((List.range n).map fun r => ((List.range n).map fun c =>
      mvalO (cellAt g r c)).sum).sum := by
  obtain ⟨hlen, hrows⟩ := hd
  rw [msetGrid_eq_sum, sum_map_eq_range g msetRow [], hlen]
  apply congrArg List.sum
  apply List.map_congr_left
  intro r hr
  rw [List.mem_range] at hr
  have hrl : (g.getD r []).length = n := hrows _ (getD_mem_of_lt _ _ _ (by omega))
  rw [msetRow_eq_range, hrl]
  rfl

theorem traversal_sum_valO {g : Grid} {n : Nat} (hd : dimsEq n g) (d : Direction) :
    ((getTraversalOrder d n).map fun x => valO (cellAt g x.row x.col)).sum = sumGrid g := by
  rw [traversal_sum (fun x => valO (cellAt g x.row x.col)) d n, sumGrid_eq_double hd]

theorem traversal_sum_mvalO {g : Grid} {n : Nat} (hd : dimsEq n g) (d : Direction) :
    ((getTraversalOrder d n).map fun x => mvalO (cellAt g x.row x.col)).sum = msetGrid g := by
  rw [traversal_sum (fun x => mvalO (cellAt g x.row x.col)) d n, msetGrid_eq_double hd]

/-! ## One step of the traversal loop -/

theorem placeStep_spec {n : Nat} {st st' : MoveState} {v tid : Nat} {fp1 : Cell}
    {d : Direction} {cell : Cell}
    (hdim : dimsEq n st.g)
    (hr : fp1.row < n) (hc : fp1.col < n)
    (hemp : cellAt st.g fp1.row fp1.col = none)
    (hline : lineIdx d fp1 = lineIdx d cell) (hpos : posIdx d n fp1 ≤ posIdx d n cell)
    (hg : st'.g = setCell st.g fp1.row fp1.col
      (some { id := tid, value := v, position := fp1 }))
    (hmts : st'.mts = st.mts) (hscore : st'.score = st.score) :
    dimsEq n st'.g ∧
    sumGrid st'.g = sumGrid st.g + v ∧
    (∃ Δ, st'.mts = st.mts ++ Δ ∧ st'.score = st.score + (Δ.map Tile.value).sum) ∧
    (st'.mts = st.mts → msetGrid st'.g = msetGrid st.g + ({v} : Multiset Nat)) ∧
    (∀ x : Cell, travBefore d n cell x →
      cellAt st'.g x.row x.col = cellAt st.g x.row x.col) ∧
    (posWF st.g → posWF st'.g) := by
  refine ⟨?_, ?_, ?_, ?_, ?_, ?_⟩
  · rw [hg]
    exact dimsEq_setCell hdim _ _ _
  · have h1 := sumGrid_setCell hdim hr hc (some { id := tid, value := v, position := fp1 })
    rw [hemp] at h1
    rw [hg]
    simp only [valO] at h1 ⊢
    omega
  · exact ⟨[], by simp [hmts], by simp [hscore]⟩
  · intro _
    rw [hg, msetGrid_setCell_empty hdim hr hc _ hemp]
    rw [← Multiset.singleton_add, add_comm]
  · intro x hx
    rw [hg]
    apply cellAt_setCell_ne
    rintro ⟨e1, e2⟩
    have hxeq : x = fp1 := by
      obtain ⟨a, b⟩ := x
      obtain ⟨a2, b2⟩ := fp1
      dsimp only at e1 e2
      rw [e1, e2]
    subst hxeq
    have := hx (hline.symm)
    omega
  · intro hw
    rw [hg]
    apply posWF_setCell hw
    intro t ht
    cases ht
    rfl

theorem mergeStep_spec {n : Nat} {st st' : MoveState} {v tid : Nat} {next : Cell}
    {nextTile : Tile} {d : Direction} {cell : Cell}
    (hdim : dimsEq n st.g)
    (hr : next.row < n) (hc : next.col < n)
    (hnt : cellAt st.g next.row next.col = some nextTile)
    (hv : nextTile.value = v)
    (hline : lineIdx d next = lineIdx d cell) (hpos : posIdx d n next < posIdx d n cell)
    (hg : st'.g = setCell st.g next.row next.col (some (createTile tid next (v * 2))))
    (hmts : st'.mts = st.mts ++ [createTile tid next (v * 2)])
    (hscore : st'.score = st.score + v * 2) :
    dimsEq n st'.g ∧
    sumGrid st'.g = sumGrid st.g + v ∧
    (∃ Δ, st'.mts = st.mts ++ Δ ∧ st'.score = st.score + (Δ.map Tile.value).sum) ∧
    (st'.mts = st.mts → msetGrid st'.g = msetGrid st.g + ({v} : Multiset Nat)) ∧
    (∀ x : Cell, travBefore d n cell x →
      cellAt st'.g x.row x.col = cellAt st.g x.row x.col) ∧
    (posWF st.g → posWF st'.g) := by
  refine ⟨?_, ?_, ?_, ?_, ?_, ?_⟩
  · rw [hg]
    exact dimsEq_setCell hdim _ _ _
  · have h1 := sumGrid_setCell hdim hr hc (some (createTile tid next (v * 2)))
    rw [hnt] at h1
    rw [hg]
    simp only [valO, createTile] at h1 ⊢
    omega
  · refine ⟨[createTile tid next (v * 2)], hmts, ?_⟩
    rw [hscore]
    simp [createTile]
  · intro habs
    rw [hmts] at habs
    have h2 : st.mts.length + 1 = st.mts.length := by
      have h3 := congrArg List.length habs
      simp at h3
    omega
  · intro x hx
    rw [hg]
    apply cellAt_setCell_ne
    rintro ⟨e1, e2⟩
    have hxeq : x = next := by
      obtain ⟨a, b⟩ := x
      obtain ⟨a2, b2⟩ := next
      dsimp only at e1 e2
      rw [e1, e2]
    subst hxeq
    have := hx (hline.symm)
    omega
  · intro hw
    rw [hg]
    apply posWF_setCell hw
    intro t ht
    cases ht
    rfl

theorem stepMove_spec (orig : Grid) (d : Direction) {n : Nat} {st : MoveState} {cell : Cell}
    (hdim : dimsEq n st.g)
    (hcr : cell.row < n) (hcc : cell.col < n)
    (hE : cellAt st.g cell.row cell.col = none) :
    dimsEq n (stepMove orig d st cell).g ∧
    sumGrid (stepMove orig d st cell).g = sumGrid st.g + valO (cellAt orig cell.row cell.col) ∧
    (∃ Δ, (stepMove orig d st cell).mts = st.mts ++ Δ ∧
      (stepMove orig d st cell).score = st.score + (Δ.map Tile.value).sum) ∧
    ((stepMove orig d st cell).mts = st.mts →
      msetGrid (stepMove orig d st cell).g = msetGrid st.g + mvalO (cellAt orig cell.row cell.col)) ∧
    (∀ x : Cell, travBefore d n cell x →
      cellAt (stepMove orig d st cell).g x.row x.col = cellAt st.g x.row x.col) ∧
    (posWF st.g → posWF (stepMove orig d st cell).g) := by
  have hlen : st.g.length = n := hdim.1
  cases hcell : cellAt orig cell.row cell.col with
  | none =>
    have hstep : stepMove orig d st cell = st := by
      simp only [stepMove, hcell]
    rw [hstep]
    exact ⟨hdim, by simp [valO], ⟨[], by simp, by simp⟩,
      fun _ => by simp [mvalO], fun x _ => rfl, fun h => h⟩
  | some tile =>
    have hq2 : farSpec st.g st.merged d cell (findFarthestPosition cell d st.g st.merged) :=
      farAux_spec st.g st.merged d cell st.g.length cell
        (by rw [hlen]; exact hcr) (by rw [hlen]; exact hcc) rfl (le_refl _) (Or.inl rfl)
    obtain ⟨⟨hf1, hf2⟩, hf3, hf4, hf5, hf6⟩ := hq2
    rw [hlen] at hf1 hf2 hf4
    have hfe : cellAt st.g (findFarthestPosition cell d st.g st.merged).1.row
        (findFarthestPosition cell d st.g st.merged).1.col = none := by
      rcases hf5 with he | ⟨he, _⟩
      · rw [he]
        exact hE
      · exact he
    cases hnext : (findFarthestPosition cell d st.g st.merged).2 with
    | none =>
      have hg : (stepMove orig d st cell).g =
          setCell st.g (findFarthestPosition cell d st.g st.merged).1.row
            (findFarthestPosition cell d st.g st.merged).1.col
            (some { id := tile.id, value := tile.value, position := (findFarthestPosition cell d st.g st.merged).1 }) := by
        simp only [stepMove, hcell, hnext]
      have hmts : (stepMove orig d st cell).mts = st.mts := by
        simp only [stepMove, hcell, hnext]
      have hscore : (stepMove orig d st cell).score = st.score := by
        simp only [stepMove, hcell, hnext]
      exact placeStep_spec hdim hf1 hf2 hfe hf3 hf4 hg hmts hscore
    | some next =>
      obtain ⟨⟨hb1, hb2⟩, hgn⟩ := hf6 next hnext
      have hstep2 := getNextCell_spec (n := st.g.length) hgn hb1 hb2
      rw [hlen] at hb1 hb2
      rw [hlen] at hstep2
      cases hnt : cellAt st.g next.row next.col with
      | none =>
        have hg : (stepMove orig d st cell).g =
            setCell st.g (findFarthestPosition cell d st.g st.merged).1.row
              (findFarthestPosition cell d st.g st.merged).1.col
              (some { id := tile.id, value := tile.value, position := (findFarthestPosition cell d st.g st.merged).1 }) := by
          simp only [stepMove, hcell, hnext, hnt]
        have hmts : (stepMove orig d st cell).mts = st.mts := by
          simp only [stepMove, hcell, hnext, hnt]
        have hscore : (stepMove orig d st cell).score = st.score := by
          simp only [stepMove, hcell, hnext, hnt]
        exact placeStep_spec hdim hf1 hf2 hfe hf3 hf4 hg hmts hscore
      | some nextTile =>
        cases hcond : (decide (nextTile.value = tile.value) && !(st.merged.contains next)) with
        | false =>
          have hg : (stepMove orig d st cell).g =
              setCell st.g (findFarthestPosition cell d st.g st.merged).1.row
                (findFarthestPosition cell d st.g st.merged).1.col
                (some { id := tile.id, value := tile.value, position := (findFarthestPosition cell d st.g st.merged).1 }) := by
            simp only [stepMove, hcell, hnext, hnt, hcond, Bool.false_eq_true, if_false]
          have hmts : (stepMove orig d st cell).mts = st.mts := by
            simp only [stepMove, hcell, hnext, hnt, hcond, Bool.false_eq_true, if_false]
          have hscore : (stepMove orig d st cell).score = st.score := by
            simp only [stepMove, hcell, hnext, hnt, hcond, Bool.false_eq_true, if_false]
          exact placeStep_spec hdim hf1 hf2 hfe hf3 hf4 hg hmts hscore
        | true =>
          have hveq : nextTile.value = tile.value := by
            rw [Bool.and_eq_true, decide_eq_true_eq] at hcond
            exact hcond.1
          have hg : (stepMove orig d st cell).g =
              setCell st.g next.row next.col (some (createTile st.nid next (tile.value * 2))) := by
            simp only [stepMove, hcell, hnext, hnt, hcond, if_true]
          have hmts : (stepMove orig d st cell).mts =
              st.mts ++ [createTile st.nid next (tile.value * 2)] := by
            simp only [stepMove, hcell, hnext, hnt, hcond, if_true]
          have hscore : (stepMove orig d st cell).score = st.score + tile.value * 2 := by
            simp only [stepMove, hcell, hnext, hnt, hcond, if_true]
          exact mergeStep_spec hdim hb1 hb2 hnt hveq (hstep2.1.trans hf3)
            (by omega) hg hmts hscore

/-! ## The whole traversal loop -/

theorem moveLoop_spec (orig : Grid) (d : Direction) {n : Nat} :
    ∀ (cells : List Cell) (st : MoveState),
      dimsEq n st.g →
      List.Pairwise (travBefore d n) cells →
      (∀ x ∈ cells, x.row < n ∧ x.col < n) →
      (∀ x ∈ cells, cellAt st.g x.row x.col = none) →
      dimsEq n (moveLoop orig d cells st).g ∧
      sumGrid (moveLoop orig d cells st).g =
        sumGrid st.g + ((cells.map fun x => valO (cellAt orig x.row x.col)).sum) ∧
      (∃ Δ, (moveLoop orig d cells st).mts = st.mts ++ Δ ∧
        (moveLoop orig d cells st).score = st.score + (Δ.map Tile.value).sum) ∧
      ((moveLoop orig d cells st).mts = st.mts →
        msetGrid (moveLoop orig d cells st).g =
          msetGrid st.g + ((cells.map fun x => mvalO (cellAt orig x.row x.col)).sum)) ∧
      (posWF st.g → posWF (moveLoop orig d cells st).g) := by
  intro cells
  induction cells with
  | nil =>
    intro st hdim _ _ _
    exact ⟨hdim, by simp [moveLoop], ⟨[], by simp [moveLoop], by simp [moveLoop]⟩,
      fun _ => by simp [moveLoop], fun h => h⟩
  | cons c cs ih =>
    intro st hdim hpw hbounds hempty
    obtain ⟨hcb1, hcb2⟩ := hbounds c (List.mem_cons_self c cs)
    have hEc : cellAt st.g c.row c.col = none := hempty c (List.mem_cons_self c cs)
    obtain ⟨hs1, hs2, ⟨hΔc, hs3, hs4⟩, hs5, hs6, hs7⟩ :=
      stepMove_spec orig d hdim hcb1 hcb2 hEc
    obtain ⟨hhead, htail⟩ := List.pairwise_cons.mp hpw
    have hloop : moveLoop orig d (c :: cs) st = moveLoop orig d cs (stepMove orig d st c) := rfl
    have hempty' : ∀ x ∈ cs, cellAt (stepMove orig d st c).g x.row x.col = none := by
      intro x hx
      rw [hs6 x (hhead x hx)]
      exact hempty x (List.mem_cons_of_mem c hx)
    have hbounds' : ∀ x ∈ cs, x.row < n ∧ x.col < n :=
      fun x hx => hbounds x (List.mem_cons_of_mem c hx)
    obtain ⟨ht1, ht2, ⟨hΔr, ht3, ht4⟩, ht5, ht6⟩ := ih (stepMove orig d st c) hs1 htail hbounds' hempty'
    rw [hloop]
    refine ⟨ht1, ?_, ?_, ?_, ?_⟩
    · rw [ht2, hs2, List.map_cons, List.sum_cons]
      omega
    · refine ⟨hΔc ++ hΔr, ?_, ?_⟩
      · rw [ht3, hs3, List.append_assoc]
      · rw [ht4, hs4, List.map_append, List.sum_append]
        omega
    · intro hmtseq
      rw [ht3, hs3, List.append_assoc] at hmtseq
      have hnil : hΔc ++ hΔr = [] := by
        have h2 : st.mts ++ (hΔc ++ hΔr) = st.mts ++ [] := by
          rw [List.append_nil]
          exact hmtseq
        exact List.append_cancel_left h2
      obtain ⟨hc0, hr0⟩ := List.append_eq_nil.mp hnil
      have hmts' : (stepMove orig d st c).mts = st.mts := by
        rw [hs3, hc0, List.append_nil]
      have hmtsr : (moveLoop orig d cs (stepMove orig d st c)).mts =
          (stepMove orig d st c).mts := by
        rw [ht3, hr0, List.append_nil]
      rw [ht5 hmtsr, hs5 hmts', List.map_cons, List.sum_cons, add_assoc]
    · intro hw
      exact ht6 (hs7 hw)

theorem sumGrid_createEmptyGrid (n : Nat) : sumGrid (createEmptyGrid n) = 0 := by
  simp [sumGrid, createEmptyGrid, List.map_replicate, List.sum_replicate, valO]

theorem msetGrid_createEmptyGrid (n : Nat) : msetGrid (createEmptyGrid n) = 0 := by
  rw [msetGrid_eq_sum]
  simp [createEmptyGrid, List.map_replicate, List.sum_replicate, msetRow]

theorem performMove_spec {g : Grid} {n : Nat} (hd : dimsEq n g) (d : Direction) (tid : Nat) :
    dimsEq n (performMove g d tid).grid ∧
    sumGrid (performMove g d tid).grid = sumGrid g ∧
    (performMove g d tid).score = ((performMove g d tid).mergedTiles.map Tile.value).sum ∧
    ((performMove g d tid).mergedTiles = [] →
      msetGrid (performMove g d tid).grid = msetGrid g) ∧
    posWF (performMove g d tid).grid := by
  have hn : g.length = n := hd.1
  have hML := moveLoop_spec g d (n := n)
    (getTraversalOrder d g.length)
    { g := createEmptyGrid g.length, merged := [], mts := [],
      moved := false, score := 0, nid := tid }
    (by rw [hn]; exact dimsEq_createEmptyGrid n)
    (by rw [hn]; exact traversal_pairwise d n)
    (by rw [hn]; intro x hx; exact traversal_mem_bounds hx)
    (by intro x hx; exact cellAt_createEmptyGrid _ _ _)
  obtain ⟨hm1, hm2, ⟨Δ, hm3, hm4⟩, hm5, hm6⟩ := hML
  have hgr : (performMove g d tid).grid =
      (moveLoop g d (getTraversalOrder d g.length)
        { g := createEmptyGrid g.length, merged := [], mts := [],
          moved := false, score := 0, nid := tid }).g := rfl
  have hsc : (performMove g d tid).score =
      (moveLoop g d (getTraversalOrder d g.length)
        { g := createEmptyGrid g.length, merged := [], mts := [],
          moved := false, score := 0, nid := tid }).score := rfl
  have hmt : (performMove g d tid).mergedTiles =
      (moveLoop g d (getTraversalOrder d g.length)
        { g := createEmptyGrid g.length, merged := [], mts := [],
          moved := false, score := 0, nid := tid }).mts := rfl
  refine ⟨by rw [hgr]; exact hm1, ?_, ?_, ?_, ?_⟩
  · rw [hgr, hm2]
    have htr : ((getTraversalOrder d g.length).map fun x =>
        valO (cellAt g x.row x.col)).sum = sumGrid g := by
      rw [hn]
      exact traversal_sum_valO hd d
    simp only [sumGrid_createEmptyGrid, htr, Nat.zero_add]
  · rw [hsc, hmt, hm4, hm3]
    simp
  · intro hempty
    rw [hmt, hm3] at hempty
    simp only [List.nil_append] at hempty
    have hmm : (moveLoop g d (getTraversalOrder d g.length)
        { g := createEmptyGrid g.length, merged := [], mts := [],
          moved := false, score := 0, nid := tid }).mts = ([] : List Tile) := by
      rw [hm3, hempty]
      rfl
    rw [hgr, hm5 hmm]
    have htr : ((getTraversalOrder d g.length).map fun x =>
        mvalO (cellAt g x.row x.col)).sum = msetGrid g := by
      rw [hn]
      exact traversal_sum_mvalO hd d
    rw [msetGrid_createEmptyGrid, htr, zero_add]
  · rw [hgr]
    exact hm6 (posWF_createEmptyGrid _)

/-! ## Spawn invariant -/

theorem spawnRandomTile_wf {g g' : Grid} {n : Nat} (hd : dimsEq n g) (hw : posWF g)
    {sv : List SpawnConfig} {rc : Nat} {rv : ℚ} {tid : Nat}
    (h : spawnRandomTile g sv rc rv tid = some g') :
    dimsEq n g' ∧ posWF g' := by
  simp only [spawnRandomTile] at h
  split at h
  · cases h
  · cases hsel : selectSpawnValue sv rv with
    | none =>
      rw [hsel] at h
      cases h
    | some v =>
      rw [hsel] at h
      rw [Option.some_inj] at h
      subst h
      rw [cloneGrid_id]
      constructor
      · exact dimsEq_setCell hd _ _ _
      · apply posWF_setCell hw
        intro t ht
        cases ht
        rfl

/-! ## Game-state layer lemmas -/

theorem undoLimit_pos (config : GameConfig) : 0 < undoLimit config := by
  unfold undoLimit
  split
  · split <;> omega
  · omega

theorem cloneGameState_eq (s : GameState) :
    cloneGameState s = { s with previousStates := [] } := by
  unfold cloneGameState
  rw [cloneGrid_id]

theorem move_not_moved {s : GameState} {d : Direction} {rc : Nat} {rv : ℚ} {t1 t2 : Nat}
    (h : (performMove s.grid d t1).moved = false) :
    move s d rc rv t1 t2 =
      { newState := s, moved := false, score := 0, mergedTiles := [] } := by
  unfold move
  by_cases hl : s.status = GameStatus.Lost
  · rw [if_pos hl]
  · rw [if_neg hl]
    simp only [h, Bool.not_false, if_true]

theorem move_moved_spec {s : GameState} {d : Direction} {rc : Nat} {rv : ℚ} {t1 t2 : Nat}
    (h : (move s d rc rv t1 t2).moved = true) :
    ∃ g', spawnRandomTile (performMove s.grid d t1).grid s.config.spawnValues rc rv t2 = some g' ∧
      (move s d rc rv t1 t2).newState =
        { grid := g',
          score := s.score + (performMove s.grid d t1).score,
          status := determineGameStatus g' s.config.targetValue s.status,
          previousStates := (cloneGameState s :: s.previousStates).take (undoLimit s.config),
          config := s.config,
          moveCount := s.moveCount + 1,
          wonAndContinued := s.wonAndContinued } ∧
      (move s d rc rv t1 t2).score = (performMove s.grid d t1).score ∧
      (move s d rc rv t1 t2).mergedTiles = (performMove s.grid d t1).mergedTiles := by
  by_cases hl : s.status = GameStatus.Lost
  · exfalso
    unfold move at h
    rw [if_pos hl] at h
    cases h
  · cases hmv : (performMove s.grid d t1).moved with
    | false =>
      exfalso
      rw [move_not_moved hmv] at h
      cases h
    | true =>
      cases hsp : spawnRandomTile (performMove s.grid d t1).grid s.config.spawnValues rc rv t2 with
      | none =>
        exfalso
        unfold move at h
        rw [if_neg hl] at h
        simp only [hmv, Bool.not_true, if_false, hsp] at h
        cases h
      | some g' =>
        refine ⟨g', rfl, ?_, ?_, ?_⟩ <;>
          · unfold move
            rw [if_neg hl]
            simp only [hmv, Bool.not_true, Bool.false_eq_true, if_false, hsp]

theorem move_config (s : GameState) (d : Direction) (rc : Nat) (rv : ℚ) (t1 t2 : Nat) :
    (move s d rc rv t1 t2).newState.config = s.config := by
  unfold move
  dsimp only
  split
  · rfl
  · split
    · rfl
    · split
      · rfl
      · rfl

theorem move_newState_of_not_moved {s : GameState} {d : Direction} {rc : Nat} {rv : ℚ}
    {t1 t2 : Nat} (hmv : (move s d rc rv t1 t2).moved = false) :
    (move s d rc rv t1 t2).newState = s := by
  by_cases hl : s.status = GameStatus.Lost
  · unfold move
    rw [if_pos hl]
  · cases hpm : (performMove s.grid d t1).moved with
    | false => rw [move_not_moved hpm]
    | true =>
      unfold move
      rw [if_neg hl]
      simp only [hpm, Bool.not_true, Bool.false_eq_true, if_false]
      cases hsp : spawnRandomTile (performMove s.grid d t1).grid s.config.spawnValues rc rv t2 with
      | none => rfl
      | some g2 =>
        exfalso
        unfold move at hmv
        rw [if_neg hl] at hmv
        simp only [hpm, Bool.not_true, Bool.false_eq_true, if_false, hsp] at hmv
        cases hmv

theorem move_won_sticky {s : GameState} {d : Direction} {rc : Nat} {rv : ℚ} {t1 t2 : Nat}
    (h : s.status = GameStatus.Won) :
    (move s d rc rv t1 t2).newState.status = GameStatus.Won := by
  cases hmv : (move s d rc rv t1 t2).moved with
  | false =>
    rw [move_newState_of_not_moved hmv]
    exact h
  | true =>
    obtain ⟨g2, _, hns, _, _⟩ := move_moved_spec hmv
    rw [hns]
    show determineGameStatus g2 s.config.targetValue s.status = GameStatus.Won
    unfold determineGameStatus
    rw [if_pos h]

theorem playMoves_won_sticky (inputs : List MoveInput) :
    ∀ s : GameState, s.status = GameStatus.Won →
      (playMoves s inputs).status = GameStatus.Won := by
  induction inputs with
  | nil => intro s h; exact h
  | cons i rest ih =>
    intro s h
    exact ih (stepState s i) (move_won_sticky h)

theorem stepState_config (s : GameState) (i : MoveInput) :
    (stepState s i).config = s.config :=
  move_config s i.dir i.rc i.rv i.tidM i.tidS

theorem stepState_prev_bound {s : GameState} {i : MoveInput} {m : Nat}
    (hcfg : undoLimit s.config = m)
    (hlen : s.previousStates.length ≤ m) :
    (stepState s i).previousStates.length ≤ m := by
  cases hmv : (move s i.dir i.rc i.rv i.tidM i.tidS).moved with
  | false =>
    unfold stepState
    rw [move_newState_of_not_moved hmv]
    exact hlen
  | true =>
    obtain ⟨g', _, hns, _, _⟩ := move_moved_spec hmv
    unfold stepState
    rw [hns]
    have h2 : (List.take (undoLimit s.config) (cloneGameState s :: s.previousStates)).length ≤
        undoLimit s.config := by
      rw [List.length_take]
      omega
    simp only []
    omega

theorem playMoves_prev_bound (inputs : List MoveInput) :
    ∀ (s : GameState) (m : Nat), undoLimit s.config = m →
      s.previousStates.length ≤ m →
      (playMoves s inputs).previousStates.length ≤ m := by
  induction inputs with
  | nil => intro s m _ h; exact h
  | cons i rest ih =>
    intro s m hcfg hlen
    exact ih (stepState s i) m (by rw [stepState_config]; exact hcfg)
      (stepState_prev_bound hcfg hlen)

/-! ## Undo and history -/

theorem undo_of_push {s st : GameState} {rest : List GameState}
    (h : st.previousStates = cloneGameState s :: rest) :
    (undo st).grid = s.grid ∧ (undo st).score = s.score ∧
    (undo st).moveCount = s.moveCount ∧ (undo st).previousStates = rest := by
  unfold undo
  rw [h]
  dsimp only
  rw [cloneGameState_eq]
  exact ⟨rfl, rfl, rfl, rfl⟩

theorem initializeGame_ok {cfg : GameConfig} {rc1 : Nat} {rv1 : ℚ} {t1 rc2 : Nat} {rv2 : ℚ}
    {t2 : Nat} {s0 : GameState}
    (h : initializeGame cfg rc1 rv1 t1 rc2 rv2 t2 = Except.ok s0) :
    s0.previousStates = [] ∧ s0.config = cfg ∧ s0.score = 0 ∧ s0.moveCount = 0 ∧
      s0.status = GameStatus.Playing := by
  unfold initializeGame at h
  dsimp only at h
  split at h
  · cases h
  · split at h
    · cases h
    · split at h
      · cases h
      · rw [Except.ok.injEq] at h
        subst h
        exact ⟨rfl, rfl, rfl, rfl, rfl⟩

theorem move_moved_prev {s : GameState} {d : Direction} {rc : Nat} {rv : ℚ} {t1 t2 : Nat}
    (h : (move s d rc rv t1 t2).moved = true)
    (hlen : s.previousStates.length + 1 ≤ undoLimit s.config) :
    (move s d rc rv t1 t2).newState.previousStates =
      cloneGameState s :: s.previousStates := by
  obtain ⟨g2, _, hns, _, _⟩ := move_moved_spec h
  rw [hns]
  show (cloneGameState s :: s.previousStates).take (undoLimit s.config) = _
  apply List.take_of_length_le
  simp only [List.length_cons]
  omega

theorem playMoves_history (inputs : List MoveInput) :
    ∀ s : GameState, allMoved s inputs = true →
      inputs.length + s.previousStates.length ≤ undoLimit s.config →
      (playMoves s inputs).previousStates =
        (trajStates s inputs).reverse.map cloneGameState ++ s.previousStates := by
  induction inputs with
  | nil =>
    intro s _ _
    simp [playMoves, trajStates]
  | cons i rest ih =>
    intro s hm hlen
    simp only [allMoved, Bool.and_eq_true] at hm
    obtain ⟨hmv, hrest⟩ := hm
    simp only [List.length_cons] at hlen
    have hprev : (stepState s i).previousStates = cloneGameState s :: s.previousStates := by
      unfold stepState
      apply move_moved_prev hmv
      omega
    have hcfg : undoLimit (stepState s i).config = undoLimit s.config := by
      rw [stepState_config]
    have hlen2 : rest.length + (stepState s i).previousStates.length ≤
        undoLimit (stepState s i).config := by
      rw [hprev, hcfg, List.length_cons]
      omega
    show (playMoves (stepState s i) rest).previousStates = _
    rw [ih (stepState s i) hrest hlen2, hprev]
    show _ = (s :: trajStates (stepState s i) rest).reverse.map cloneGameState ++
      s.previousStates
    rw [List.reverse_cons, List.map_append]
    simp

theorem undoIter_succ_eq (j : Nat) (st : GameState) :
    undoIter (j + 1) st = undoIter j (undo st) := rfl

theorem undoIter_spec :
    ∀ (l : List GameState) (st : GameState),
      st.previousStates = l.map cloneGameState →
      ∀ j, j < l.length →
        (undoIter (j + 1) st).score = (l.getD j dummyState).score ∧
        (undoIter (j + 1) st).moveCount = (l.getD j dummyState).moveCount := by
  intro l
  induction l with
  | nil =>
    intro st h j hj
    simp at hj
  | cons x xs ih =>
    intro st h j hj
    have hpp : st.previousStates = cloneGameState x :: xs.map cloneGameState := by
      rw [h]
      rfl
    have hu := undo_of_push hpp
    cases j with
    | zero =>
      rw [undoIter_succ_eq]
      exact ⟨hu.2.1, hu.2.2.1⟩
    | succ j =>
      rw [undoIter_succ_eq]
      have hx := ih (undo st) hu.2.2.2 j (by simpa using hj)
      simpa using hx

theorem trajStates_length (inputs : List MoveInput) :
    ∀ s : GameState, (trajStates s inputs).length = inputs.length := by
  induction inputs with
  | nil => intro s; rfl
  | cons i rest ih =>
    intro s
    show (s :: trajStates (stepState s i) rest).length = rest.length + 1
    rw [List.length_cons, ih]

theorem trajStates_getD (inputs : List MoveInput) :
    ∀ (s : GameState) (k : Nat), k < inputs.length →
      (trajStates s inputs).getD k dummyState = playMoves s (inputs.take k) := by
  induction inputs with
  | nil =>
    intro s k hk
    simp at hk
  | cons i rest ih =>
    intro s k hk
    cases k with
    | zero =>
      show (s :: trajStates (stepState s i) rest).getD 0 dummyState = _
      rw [List.getD_cons_zero]
      rfl
    | succ k =>
      show (s :: trajStates (stepState s i) rest).getD (k + 1) dummyState = _
      rw [List.getD_cons_succ]
      rw [ih (stepState s i) k (by simpa using hk)]
      rfl

/-! ## The bitwise power-of-two test -/

theorem testBit_of_between {x k : Nat} (h1 : 2 ^ k ≤ x) (h2 : x < 2 ^ (k + 1)) :
    x.testBit k = true := by
  rw [Nat.testBit_to_div_mod]
  have hdiv : x / 2 ^ k = 1 := by
    apply Nat.div_eq_of_lt_le
    · omega
    · have hp : (1 + 1) * 2 ^ k = 2 ^ (k + 1) := by ring
      omega
  simp [hdiv]

theorem land_pred_eq_zero_iff {t : Nat} (ht : t ≠ 0) :
    t &&& (t - 1) = 0 ↔ ∃ k, t = 2 ^ k := by
  constructor
  · intro h
    refine ⟨t.log2, ?_⟩
    by_contra hne
    have h1 : 2 ^ t.log2 ≤ t := Nat.log2_self_le ht
    have h2 : t < 2 ^ (t.log2 + 1) := Nat.lt_log2_self
    have h3 : 2 ^ t.log2 < t := lt_of_le_of_ne h1 (fun he => hne he.symm)
    have hbt : t.testBit t.log2 = true := testBit_of_between h1 h2
    have hbt1 : (t - 1).testBit t.log2 = true :=
      testBit_of_between (by omega) (by omega)
    have hland := congrArg (fun x => x.testBit t.log2) h
    simp only [Nat.testBit_land, hbt, hbt1, Bool.and_self, Nat.zero_testBit] at hland
    cases hland
  · rintro ⟨k, rfl⟩
    apply Nat.eq_of_testBit_eq
    intro i
    rw [Nat.testBit_land, Nat.zero_testBit]
    rcases eq_or_ne i k with rfl | hne
    · rw [Nat.testBit_two_pow_sub_one]
      simp
    · rw [Nat.testBit_two_pow_of_ne (fun he => hne he.symm)]
      rfl

theorem land_mod_pred_iff (B t : Nat) (hB : 0 < B) :
    (t % B) &&& ((t - 1) % B) = 0 ↔ (t % B = 0 ∨ ∃ k, t % B = 2 ^ k) := by
  by_cases h0 : t % B = 0
  · rw [h0]
    simp [Nat.zero_and]
  · have hd := Nat.div_add_mod t B
    have hlt : t % B < B := Nat.mod_lt t hB
    have hmod : (t - 1) % B = t % B - 1 := by
      have he : t - 1 = (t % B - 1) + B * (t / B) := by omega
      rw [he, Nat.add_mul_mod_self_left]
      exact Nat.mod_eq_of_lt (by omega)
    rw [hmod, land_pred_eq_zero_iff h0]
    exact ⟨Or.inr, fun h => h.resolve_left h0⟩

/-! ## The spawn-value selection loop -/

theorem prefixSum_cons (c : SpawnConfig) (rest : List SpawnConfig) (k : Nat) :
    prefixSum (c :: rest) (k + 1) = c.probability + prefixSum rest k := by
  simp [prefixSum, List.take_succ_cons]

theorem selectLoop_spec (r : ℚ) :
    ∀ (svs : List SpawnConfig) (acc : ℚ),
      (∃ i, i < svs.length ∧ r ≤ acc + prefixSum svs (i + 1) ∧
        (∀ j, j < i → ¬(r ≤ acc + prefixSum svs (j + 1))) ∧
        selectLoop r svs acc = some ((svs.getD i { value := 0, probability := 0 }).value)) ∨
      ((∀ i, i < svs.length → ¬(r ≤ acc + prefixSum svs (i + 1))) ∧
        selectLoop r svs acc = none) := by
  intro svs
  induction svs with
  | nil =>
    intro acc
    right
    exact ⟨fun i hi => absurd hi (by simp), rfl⟩
  | cons c rest ih =>
    intro acc
    by_cases hle : r ≤ acc + c.probability
    · left
      refine ⟨0, by simp, ?_, fun j hj => absurd hj (by omega), ?_⟩
      · rw [prefixSum_cons]
        have h0 : prefixSum rest 0 = 0 := rfl
        rw [h0, add_zero]
        exact hle
      · simp only [selectLoop, zero_add]
        rw [if_pos hle]
        rfl
    · rcases ih (acc + c.probability) with ⟨i, hi, hle2, hmin, heq⟩ | ⟨hall, heq⟩
      · left
        refine ⟨i + 1, by simp; omega, ?_, ?_, ?_⟩
        · rw [prefixSum_cons, ← add_assoc]
          exact hle2
        · intro j hj
          cases j with
          | zero =>
            rw [prefixSum_cons]
            have h0 : prefixSum rest 0 = 0 := rfl
            rw [h0, add_zero]
            exact hle
          | succ j =>
            rw [prefixSum_cons, ← add_assoc]
            exact hmin j (by omega)
        · simp only [selectLoop]
          rw [if_neg hle]
          rw [heq, List.getD_cons_succ]
      · right
        constructor
        · intro i hi
          cases i with
          | zero =>
            rw [prefixSum_cons]
            have h0 : prefixSum rest 0 = 0 := rfl
            rw [h0, add_zero]
            exact hle
          | succ i =>
            rw [prefixSum_cons, ← add_assoc]
            exact hall i (by simpa using hi)
        · simp only [selectLoop]
          rw [if_neg hle]
          exact heq

/-! ## Config validation -/

theorem validateGameConfig_eq_nil_iff (config : GameConfig) :
    validateGameConfig config = [] ↔ validConfigSpec32 config := by
  unfold validateGameConfig
  dsimp only
  simp only [List.nil_append, List.append_eq_nil]
  constructor
  · rintro ⟨⟨⟨hA, hB⟩, hC⟩, hD⟩
    have hA2 : ¬(config.gridSize < 3 ∨ config.gridSize > 6) := by
      intro hc
      rw [if_pos (by simpa using hc)] at hA
      cases hA
    have hB2 : config.targetValue ≠ 0 := by
      intro hc
      rw [if_pos hc] at hB
      cases hB
    have hC2 : (config.targetValue % 2 ^ 32) &&& ((config.targetValue - 1) % 2 ^ 32) = 0 := by
      by_contra hc
      rw [if_pos hc] at hC
      cases hC
    split at hD
    · cases hD
    · next hne =>
      rw [List.append_eq_nil] at hD
      obtain ⟨hE, hF⟩ := hD
      have hsum : |(config.spawnValues.map SpawnConfig.probability).sum - 1| ≤ 1 / 1000 := by
        by_contra hc
        rw [not_le] at hc
        rw [if_pos hc] at hE
        cases hE
      rw [List.flatMap_eq_nil_iff] at hF
      refine ⟨by omega, by omega, Nat.pos_of_ne_zero hB2,
        (land_mod_pred_iff (2 ^ 32) config.targetValue (by norm_num)).mp hC2,
        fun he => hne (by rw [he]; rfl), ?_, ?_, hsum⟩
      · intro sv hsv
        have hf := hF sv hsv
        rw [List.append_eq_nil] at hf
        by_contra hc
        have hv0 : sv.value = 0 := by omega
        rw [if_pos hv0] at hf
        cases hf.1
      · intro sv hsv
        have hf := hF sv hsv
        rw [List.append_eq_nil] at hf
        by_contra hc
        have hc2 : (decide (sv.probability < 0) || decide (sv.probability > 1)) = true := by
          rw [not_and_or, not_le, not_le] at hc
          rcases hc with hc | hc <;> simp [hc]
        rw [if_pos hc2] at hf
        cases hf.2
  · rintro ⟨hg1, hg2, ht, hpow, hnn, hval, hprob, hsum⟩
    have hB2 : config.targetValue ≠ 0 := by omega
    refine ⟨⟨⟨?_, ?_⟩, ?_⟩, ?_⟩
    · rw [if_neg]
      simp only [Bool.or_eq_true, decide_eq_true_eq]
      omega
    · rw [if_neg hB2]
    · rw [if_neg]
      intro hc
      exact hc ((land_mod_pred_iff (2 ^ 32) config.targetValue (by norm_num)).mpr hpow)
    · rw [if_neg (fun he => hnn (List.length_eq_zero.mp he))]
      rw [List.append_eq_nil]
      constructor
      · rw [if_neg (not_lt.mpr hsum)]
      · rw [List.flatMap_eq_nil_iff]
        intro sv hsv
        rw [List.append_eq_nil]
        constructor
        · rw [if_neg]
          have := hval sv hsv
          omega
        · rw [if_neg]
          simp only [Bool.or_eq_true, decide_eq_true_eq]
          have := hprob sv hsv
          intro hc
          rcases hc with hc | hc
          · exact absurd this.1 (not_le.mpr hc)
          · exact absurd this.2 (not_le.mpr hc)

/-! ## Evaluating the engine on the demo states

Rational arithmetic does not reduce definitionally (its normalization
uses well-founded recursion), so concrete runs through the spawn path
are driven by the following lemmas, with `norm_num` discharging the
rational comparisons. -/

theorem selectSpawnValue_unit (v : Nat) (r : ℚ) (hr : r ≤ 1) :
    selectSpawnValue [{ value := v, probability := 1 }] r = some v := by
  unfold selectSpawnValue selectLoop
  dsimp only
  rw [if_pos (show r ≤ 0 + 1 by linarith)]

theorem spawnRandomTile_unit (g : Grid) (v rc tid : Nat) (r : ℚ) (hr : r ≤ 1)
    (hne : ¬((getEmptyCells g).length = 0)) :
    spawnRandomTile g [{ value := v, probability := 1 }] rc r tid =
      some (setCell (cloneGrid g)
        ((getEmptyCells g).getD (rc % (getEmptyCells g).length) { row := 0, col := 0 }).row
        ((getEmptyCells g).getD (rc % (getEmptyCells g).length) { row := 0, col := 0 }).col
        (some (createTile tid
          ((getEmptyCells g).getD (rc % (getEmptyCells g).length) { row := 0, col := 0 }) v))) := by
  unfold spawnRandomTile
  dsimp only
  rw [if_neg hne, selectSpawnValue_unit v r hr]

theorem move_moved_of {s : GameState} {d : Direction} {rc : Nat} {rv : ℚ} {t1 t2 : Nat}
    {g' : Grid}
    (hst : ¬s.status = GameStatus.Lost)
    (hpm : (performMove s.grid d t1).moved = true)
    (hsp : spawnRandomTile (performMove s.grid d t1).grid s.config.spawnValues rc rv t2 =
      some g') :
    (move s d rc rv t1 t2).moved = true := by
  unfold move
  rw [if_neg hst]
  dsimp only
  simp only [hpm, Bool.not_true, Bool.false_eq_true, if_false, hsp]

theorem demoCfgZero_valid : validateGameConfig demoCfgZero = [] := by
  rw [validateGameConfig_eq_nil_iff]
  refine ⟨by decide, by decide, by decide, Or.inr ⟨11, by decide⟩, by simp [demoCfgZero],
    ?_, ?_, ?_⟩
  · intro sv hsv
    rw [show demoCfgZero.spawnValues = [{ value := 2, probability := 1 }] from rfl,
      List.mem_singleton] at hsv
    subst hsv
    decide
  · intro sv hsv
    rw [show demoCfgZero.spawnValues = [{ value := 2, probability := 1 }] from rfl,
      List.mem_singleton] at hsv
    subst hsv
    constructor <;> norm_num
  · rw [show demoCfgZero.spawnValues = [{ value := 2, probability := 1 }] from rfl]
    simp

theorem demoCfgTwo_valid : validateGameConfig demoCfgTwo = [] := by
  rw [validateGameConfig_eq_nil_iff]
  refine ⟨by decide, by decide, by decide, Or.inr ⟨11, by decide⟩, by simp [demoCfgTwo],
    ?_, ?_, ?_⟩
  · intro sv hsv
    rw [show demoCfgTwo.spawnValues = [{ value := 2, probability := 1 }] from rfl,
      List.mem_singleton] at hsv
    subst hsv
    decide
  · intro sv hsv
    rw [show demoCfgTwo.spawnValues = [{ value := 2, probability := 1 }] from rfl,
      List.mem_singleton] at hsv
    subst hsv
    constructor <;> norm_num
  · rw [show demoCfgTwo.spawnValues = [{ value := 2, probability := 1 }] from rfl]
    simp

theorem demoInitZero_eq : initializeGame demoCfgZero 0 0 1 0 0 2 = Except.ok demoInitZero := by
  unfold initializeGame
  dsimp only
  rw [demoCfgZero_valid]
  rw [if_neg (by decide)]
  rw [show demoCfgZero.spawnValues = [{ value := 2, probability := 1 }] from rfl]
  rw [spawnRandomTile_unit _ 2 0 1 0 (by norm_num) (by decide)]
  dsimp only
  rw [spawnRandomTile_unit _ 2 0 2 0 (by norm_num) (by decide)]
  rfl

theorem demoInitTwo_eq : initializeGame demoCfgTwo 0 0 1 0 0 2 = Except.ok demoInitTwo := by
  unfold initializeGame
  dsimp only
  rw [demoCfgTwo_valid]
  rw [if_neg (by decide)]
  rw [show demoCfgTwo.spawnValues = [{ value := 2, probability := 1 }] from rfl]
  rw [spawnRandomTile_unit _ 2 0 1 0 (by norm_num) (by decide)]
  dsimp only
  rw [spawnRandomTile_unit _ 2 0 2 0 (by norm_num) (by decide)]
  rfl

theorem demoInitZero_moved : (move demoInitZero Direction.Left 0 0 10 11).moved = true := by
  apply move_moved_of (by decide) (by decide)
  rw [show demoInitZero.config.spawnValues = [{ value := 2, probability := 1 }] from rfl]
  exact spawnRandomTile_unit _ 2 0 11 0 (by norm_num) (by decide)

theorem demoInitTwo_moved : (move demoInitTwo Direction.Left 0 0 10 11).moved = true := by
  apply move_moved_of (by decide) (by decide)
  rw [show demoInitTwo.config.spawnValues = [{ value := 2, probability := 1 }] from rfl]
  exact spawnRandomTile_unit _ 2 0 11 0 (by norm_num) (by decide)

/-! ## Claims -/

/-- C1 (counterexample): merging two 2-tiles preserves the total grid sum
(4 before, 4 after) while `mergedTiles` holds the new 4-tile, so
"sum after = sum before + Σ mergedTiles values" fails on the row
`[2, 2, null, null]` moved Left. -/
theorem claim_C1_counterexample :
    sumGrid (performMove demoGridPair Direction.Left 50).grid = 4 ∧
    sumGrid demoGridPair = 4 ∧
    ((performMove demoGridPair Direction.Left 50).mergedTiles.map Tile.value).sum = 4 ∧
    ¬(sumGrid (performMove demoGridPair Direction.Left 50).grid =
      sumGrid demoGridPair +
        ((performMove demoGridPair Direction.Left 50).mergedTiles.map Tile.value).sum) := by
  decide

/-- C1 (amended): for every well-formed grid and direction, `performMove`
leaves the multiset of tile values unchanged when no merge occurs, always
preserves the total of all tile values (each merged tile's value equals
the sum of the two tiles it replaced), and the score gained equals the
sum of the values of the tiles in `mergedTiles`. -/
theorem claim_C1 (g : Grid) (d : Direction) (tid : Nat) (h : gridWF g = true) :
    ((performMove g d tid).mergedTiles = [] →
      msetGrid (performMove g d tid).grid = msetGrid g) ∧
    sumGrid (performMove g d tid).grid = sumGrid g ∧
    (performMove g d tid).score =
      ((performMove g d tid).mergedTiles.map Tile.value).sum := by
  obtain ⟨hd, _⟩ := (gridWF_iff g).mp h
  obtain ⟨_, hsum, hscore, hmset, _⟩ := performMove_spec hd d tid
  exact ⟨hmset, hsum, hscore⟩

/-- Witness for C1 at the concrete grid `[2, 2, 2, null]`. -/
theorem claim_C1_witness :
    gridWF demoGridTriple = true ∧
    sumGrid (performMove demoGridTriple Direction.Left 50).grid = sumGrid demoGridTriple :=
  ⟨by decide, (claim_C1 demoGridTriple Direction.Left 50 (by decide)).2.1⟩

/-- C2: the 4-wide row `[2, 2, 2, null]` moved Left yields `[4, 2, null,
null]` with score gained exactly 4 and a single merged 4-tile — never
`[4, 4, null, null]` or `[4, null, null, null]`. -/
theorem claim_C2 :
    ((performMove demoGridTriple Direction.Left 50).grid.map fun row =>
      row.map (Option.map Tile.value)) =
      [[some 4, some 2, none, none], [none, none, none, none],
       [none, none, none, none], [none, none, none, none]] ∧
    (performMove demoGridTriple Direction.Left 50).score = 4 ∧
    (performMove demoGridTriple Direction.Left 50).moved = true ∧
    (performMove demoGridTriple Direction.Left 50).mergedTiles.map Tile.value = [4] ∧
    ¬(((performMove demoGridTriple Direction.Left 50).grid.map fun row =>
      row.map (Option.map Tile.value)) =
      [[some 4, some 4, none, none], [none, none, none, none],
       [none, none, none, none], [none, none, none, none]]) ∧
    ¬(((performMove demoGridTriple Direction.Left 50).grid.map fun row =>
      row.map (Option.map Tile.value)) =
      [[some 4, none, none, none], [none, none, none, none],
       [none, none, none, none], [none, none, none, none]]) := by
  decide

/-- C3 (code evaluated at the failing input): after `continueAfterWin`
the state is Playing with `wonAndContinued = true` and still holds a
tile at the target value; the next successful `move` sets the status
back to Won, because `determineGameStatus` declares only three
parameters and ignores the `wonAndContinued` flag `move` passes. -/
theorem claim_C3_bug :
    (continueAfterWin demoWonState).status = GameStatus.Playing ∧
    (continueAfterWin demoWonState).wonAndContinued = true ∧
    hasWon (continueAfterWin demoWonState).grid
      (continueAfterWin demoWonState).config.targetValue = true ∧
    (move (continueAfterWin demoWonState) Direction.Left 0 0 60 61).moved = true ∧
    (move (continueAfterWin demoWonState) Direction.Left 0 0 60 61).newState.status =
      GameStatus.Won := by
  have hsp :
      spawnRandomTile (performMove (continueAfterWin demoWonState).grid Direction.Left 60).grid
        (continueAfterWin demoWonState).config.spawnValues 0 0 61 =
      some (setCell (cloneGrid
          (performMove (continueAfterWin demoWonState).grid Direction.Left 60).grid)
        ((getEmptyCells (performMove (continueAfterWin demoWonState).grid Direction.Left 60).grid).getD
          (0 % (getEmptyCells (performMove (continueAfterWin demoWonState).grid Direction.Left 60).grid).length)
          { row := 0, col := 0 }).row
        ((getEmptyCells (performMove (continueAfterWin demoWonState).grid Direction.Left 60).grid).getD
          (0 % (getEmptyCells (performMove (continueAfterWin demoWonState).grid Direction.Left 60).grid).length)
          { row := 0, col := 0 }).col
        (some (createTile 61
          ((getEmptyCells (performMove (continueAfterWin demoWonState).grid Direction.Left 60).grid).getD
            (0 % (getEmptyCells (performMove (continueAfterWin demoWonState).grid Direction.Left 60).grid).length)
            { row := 0, col := 0 }) 2))) := by
    rw [show (continueAfterWin demoWonState).config.spawnValues =
      [{ value := 2, probability := 1 }] from rfl]
    exact spawnRandomTile_unit _ 2 0 61 0 (by norm_num) (by decide)
  have hmv : (move (continueAfterWin demoWonState) Direction.Left 0 0 60 61).moved = true :=
    move_moved_of (by decide) (by decide) hsp
  refine ⟨by decide, by decide, by decide, hmv, ?_⟩
  obtain ⟨g2, hsp2, hns, _, _⟩ := move_moved_spec hmv
  rw [hns]
  have hg2 := Option.some_inj.mp (hsp2.symm.trans hsp)
  subst hg2
  dsimp only
  decide

theorem getD_reverse {α} (l : List α) (k : Nat) (d : α) (h : k < l.length) :
    l.reverse.getD k d = l.getD (l.length - 1 - k) d := by
  rw [List.getD_eq_getElem?_getD, List.getD_eq_getElem?_getD, List.getElem?_reverse h]

theorem move_moved_undo {s : GameState} {d : Direction} {rc : Nat} {rv : ℚ} {t1 t2 : Nat}
    (h : (move s d rc rv t1 t2).moved = true) :
    (undo (move s d rc rv t1 t2).newState).grid = s.grid ∧
    (undo (move s d rc rv t1 t2).newState).score = s.score ∧
    (undo (move s d rc rv t1 t2).newState).moveCount = s.moveCount := by
  obtain ⟨g2, _, hns, _, _⟩ := move_moved_spec h
  obtain ⟨m, hm⟩ : ∃ m, undoLimit s.config = m + 1 :=
    ⟨undoLimit s.config - 1, by have := undoLimit_pos s.config; omega⟩
  have hprev : (move s d rc rv t1 t2).newState.previousStates =
      cloneGameState s :: s.previousStates.take m := by
    rw [hns]
    show (cloneGameState s :: s.previousStates).take (undoLimit s.config) = _
    rw [hm, List.take_succ_cons]
  have hu := undo_of_push hprev
  exact ⟨hu.1, hu.2.1, hu.2.2.1⟩

/-- C4: undoing a successful move restores the grid, score and move
count of the pre-move state; and along any run of successful moves from
a fresh game whose length the history bound permits, `undo` applied `j`
times restores the score and move count of the state after the first
`N - j` moves, down to the fresh state. -/
theorem claim_C4 :
    (∀ (s : GameState) (d : Direction) (rc : Nat) (rv : ℚ) (t1 t2 : Nat),
      (move s d rc rv t1 t2).moved = true →
      (undo (move s d rc rv t1 t2).newState).grid = s.grid ∧
      (undo (move s d rc rv t1 t2).newState).score = s.score ∧
      (undo (move s d rc rv t1 t2).newState).moveCount = s.moveCount) ∧
    (∀ (cfg : GameConfig) (rc1 : Nat) (rv1 : ℚ) (t1 rc2 : Nat) (rv2 : ℚ) (t2 : Nat)
      (s0 : GameState) (inputs : List MoveInput),
      initializeGame cfg rc1 rv1 t1 rc2 rv2 t2 = Except.ok s0 →
      allMoved s0 inputs = true →
      inputs.length ≤ undoLimit cfg →
      ∀ j, j ≤ inputs.length →
        (undoIter j (playMoves s0 inputs)).score =
          (playMoves s0 (inputs.take (inputs.length - j))).score ∧
        (undoIter j (playMoves s0 inputs)).moveCount =
          (playMoves s0 (inputs.take (inputs.length - j))).moveCount) := by
  constructor
  · intro s d rc rv t1 t2 h
    exact move_moved_undo h
  · intro cfg rc1 rv1 t1 rc2 rv2 t2 s0 inputs hinit hall hlen j hj
    obtain ⟨hprev0, hcfg0, _, _, _⟩ := initializeGame_ok hinit
    have hhist := playMoves_history inputs s0 hall
      (by rw [hprev0, hcfg0]; simpa using hlen)
    rw [hprev0, List.append_nil] at hhist
    cases j with
    | zero =>
      rw [Nat.sub_zero, List.take_length]
      exact ⟨rfl, rfl⟩
    | succ k =>
      have hlenr : ((trajStates s0 inputs).reverse).length = inputs.length := by
        rw [List.length_reverse, trajStates_length]
      have hk : k < ((trajStates s0 inputs).reverse).length := by omega
      have hu := undoIter_spec ((trajStates s0 inputs).reverse) (playMoves s0 inputs) hhist k hk
      have hgd : ((trajStates s0 inputs).reverse).getD k dummyState =
          (trajStates s0 inputs).getD ((trajStates s0 inputs).length - 1 - k) dummyState :=
        getD_reverse _ _ _ (by rw [trajStates_length]; omega)
      rw [trajStates_length] at hgd
      rw [hgd, trajStates_getD inputs s0 _ (by omega)] at hu
      have he : inputs.length - (k + 1) = inputs.length - 1 - k := by omega
      rw [he]
      exact hu

/-- Witness for C4: one successful move from a fresh `demoCfgTwo` game,
then one undo. -/
theorem claim_C4_witness :
    (move demoInitTwo Direction.Left 0 0 10 11).moved = true ∧
    (undo (move demoInitTwo Direction.Left 0 0 10 11).newState).score = demoInitTwo.score ∧
    initializeGame demoCfgTwo 0 0 1 0 0 2 = Except.ok demoInitTwo ∧
    allMoved demoInitTwo [demoInput] = true ∧
    [demoInput].length ≤ undoLimit demoCfgTwo ∧
    (undoIter 1 (playMoves demoInitTwo [demoInput])).score =
      (playMoves demoInitTwo ([demoInput].take 0)).score := by
  have hall : allMoved demoInitTwo [demoInput] = true := by
    simp only [allMoved, Bool.and_eq_true]
    exact ⟨demoInitTwo_moved, trivial⟩
  refine ⟨demoInitTwo_moved,
    (claim_C4.1 demoInitTwo Direction.Left 0 0 10 11 demoInitTwo_moved).2.1,
    demoInitTwo_eq, hall, by decide, ?_⟩
  exact (claim_C4.2 demoCfgTwo 0 0 1 0 0 2 demoInitTwo [demoInput]
    demoInitTwo_eq hall (by decide) 1 (by decide)).1

/-- C5 (counterexample): with `maxUndoStates` set to `0` the very first
successful move from a fresh game leaves one history entry (the `|| 10`
fallback treats the falsy bound 0 as 10), so the history length exceeds
the configured bound. -/
theorem claim_C5_counterexample :
    demoCfgZero.maxUndoStates = some 0 ∧
    initializeGame demoCfgZero 0 0 1 0 0 2 = Except.ok demoInitZero ∧
    (move demoInitZero Direction.Left 0 0 10 11).moved = true ∧
    ¬((move demoInitZero Direction.Left 0 0 10 11).newState.previousStates.length ≤ 0) := by
  refine ⟨rfl, demoInitZero_eq, demoInitZero_moved, ?_⟩
  obtain ⟨g2, _, hns, _, _⟩ := move_moved_spec demoInitZero_moved
  rw [hns]
  intro hc
  dsimp only at hc
  rw [show undoLimit demoInitZero.config = 10 from rfl,
    show demoInitZero.previousStates = [] from rfl] at hc
  simp [List.length_take] at hc

/-- C5 (amended): for every state reachable by successful moves from
`initializeGame` under a config whose `maxUndoStates` is set to a
positive value `m`, the history length never exceeds `m`. -/
theorem claim_C5 (cfg : GameConfig) (rc1 : Nat) (rv1 : ℚ) (t1 rc2 : Nat) (rv2 : ℚ) (t2 : Nat)
    (s0 : GameState) (inputs : List MoveInput) (m : Nat)
    (hinit : initializeGame cfg rc1 rv1 t1 rc2 rv2 t2 = Except.ok s0)
    (hset : cfg.maxUndoStates = some m) (hm : 0 < m) :
    ∀ k, k ≤ inputs.length →
      (playMoves s0 (inputs.take k)).previousStates.length ≤ m := by
  intro k _
  obtain ⟨hprev0, hcfg0, _, _, _⟩ := initializeGame_ok hinit
  have hUL : undoLimit s0.config = m := by
    rw [hcfg0]
    unfold undoLimit
    rw [hset]
    dsimp only
    rw [if_neg (by omega)]
  exact playMoves_prev_bound (inputs.take k) s0 m hUL (by rw [hprev0]; simp)

/-- Witness for C5 at `demoCfgTwo` (`maxUndoStates = 2`). -/
theorem claim_C5_witness :
    demoCfgTwo.maxUndoStates = some 2 ∧ 0 < 2 ∧
    (playMoves demoInitTwo ([demoInput].take 1)).previousStates.length ≤ 2 :=
  ⟨rfl, by decide,
    claim_C5 demoCfgTwo 0 0 1 0 0 2 demoInitTwo [demoInput] 2
      demoInitTwo_eq rfl (by decide) 1 (by decide)⟩

/-- C6: when no tile can slide or merge in the chosen direction (the
engine reports `moved = false`), `move` returns the input state itself
with `moved = false`, no score, no merged tiles — no spawn and no
history push. -/
theorem claim_C6 (s : GameState) (d : Direction) (rc : Nat) (rv : ℚ) (t1 t2 : Nat)
    (h : (performMove s.grid d t1).moved = false) :
    move s d rc rv t1 t2 =
      { newState := s, moved := false, score := 0, mergedTiles := [] } :=
  move_not_moved h

/-- Witness for C6: a lone corner tile pushed into its own corner. -/
theorem claim_C6_witness :
    (performMove demoCornerState.grid Direction.Left 7).moved = false ∧
    move demoCornerState Direction.Left 0 0 7 8 =
      { newState := demoCornerState, moved := false, score := 0, mergedTiles := [] } :=
  ⟨by decide, claim_C6 demoCornerState Direction.Left 0 0 7 8 (by decide)⟩

/-- C7: once a state's status is Won, any sequence of subsequent `move`
calls (no reset or `continueAfterWin` in between) leaves the status
Won. -/
theorem claim_C7 (s : GameState) (inputs : List MoveInput) (h : s.status = GameStatus.Won) :
    (playMoves s inputs).status = GameStatus.Won :=
  playMoves_won_sticky inputs s h

/-- Witness for C7. -/
theorem claim_C7_witness :
    demoWonState.status = GameStatus.Won ∧
    (playMoves demoWonState [demoInput]).status = GameStatus.Won :=
  ⟨rfl, claim_C7 demoWonState [demoInput] rfl⟩

/-- C8 (counterexample): the claimed iff "empty error list exactly when
every constraint holds" fails at `targetValue = 3 * 2 ^ 31`: that value
is not a power of two, yet `validateGameConfig` accepts the config,
because JavaScript's `&` only sees the low 32 bits (`2 ^ 31`). -/
theorem claim_C8_counterexample :
    validateGameConfig demoCfgWrap = [] ∧ ¬validConfigSpec demoCfgWrap := by
  constructor
  · rw [validateGameConfig_eq_nil_iff]
    refine ⟨by decide, by decide, by decide, Or.inr ⟨31, by decide⟩, by simp [demoCfgWrap],
      ?_, ?_, ?_⟩
    · intro sv hsv
      rw [show demoCfgWrap.spawnValues = [{ value := 2, probability := 1 }] from rfl,
        List.mem_singleton] at hsv
      subst hsv
      decide
    · intro sv hsv
      rw [show demoCfgWrap.spawnValues = [{ value := 2, probability := 1 }] from rfl,
        List.mem_singleton] at hsv
      subst hsv
      constructor <;> norm_num
    · rw [show demoCfgWrap.spawnValues = [{ value := 2, probability := 1 }] from rfl]
      simp
  · rintro ⟨-, -, -, ⟨k, hk⟩, -⟩
    have hk2 : (6442450944 : Nat) = 2 ^ k := hk
    rcases le_or_lt k 32 with hle | hgt
    · have h2 : (2 : Nat) ^ k ≤ 2 ^ 32 := Nat.pow_le_pow_right (by omega) hle
      rw [← hk2] at h2
      norm_num at h2
    · have h2 : (2 : Nat) ^ 33 ≤ 2 ^ k := Nat.pow_le_pow_right (by omega) hgt
      rw [← hk2] at h2
      norm_num at h2

/-- C8 (amended): `validateGameConfig` reports the complete list of
violations — on `{gridSize: 2, targetValue: 100, spawnValues: []}` it
returns exactly the three expected messages — and it returns the empty
list precisely for the configs satisfying every constraint, with the
power-of-two constraint evaluated on the low 32 bits of `targetValue`
(JavaScript's `&` coerces both operands through ToInt32). -/
theorem claim_C8 :
    validateGameConfig demoCfgBad =
      ["Grid size must be between 3 and 6", "Target value should be a power of 2",
        "At least one spawn value must be configured"] ∧
    ∀ config : GameConfig, validateGameConfig config = [] ↔ validConfigSpec32 config :=
  ⟨rfl, validateGameConfig_eq_nil_iff⟩

/-- C9: both `performMove` (every direction) and a successful
`spawnRandomTile` preserve the grid structural invariant: square shape
and every tile's stored position matching its matrix location (the
matrix representation itself rules out two tiles in one cell). -/
theorem claim_C9 (g : Grid) (d : Direction) (tid : Nat) (sv : List SpawnConfig)
    (rc : Nat) (rv : ℚ) (tid2 : Nat) (h : gridWF g = true) :
    gridWF (performMove g d tid).grid = true ∧
    (∀ g', spawnRandomTile g sv rc rv tid2 = some g' → gridWF g' = true) := by
  obtain ⟨hd, hw⟩ := (gridWF_iff g).mp h
  constructor
  · obtain ⟨hd2, _, _, _, hw2⟩ := performMove_spec hd d tid
    rw [gridWF_iff]
    have hlen : (performMove g d tid).grid.length = g.length := hd2.1
    exact ⟨by rw [hlen]; exact hd2, hw2⟩
  · intro g' hsp
    obtain ⟨hd2, hw2⟩ := spawnRandomTile_wf hd hw hsp
    rw [gridWF_iff]
    have hlen : g'.length = g.length := hd2.1
    exact ⟨by rw [hlen]; exact hd2, hw2⟩

/-- Witness for C9. -/
theorem claim_C9_witness :
    gridWF demoGridTriple = true ∧
    gridWF (performMove demoGridTriple Direction.Right 3).grid = true :=
  ⟨by decide, (claim_C9 demoGridTriple Direction.Right 3 [] 0 0 4 (by decide)).1⟩

/-- C10: on a non-empty spawn table and any draw in `[0, 1)`,
`selectSpawnValue` returns the value of the first entry whose cumulative
probability mass reaches the draw, falling back to the first entry's
value when no prefix reaches it; in all cases the result is the value of
some table entry. -/
theorem claim_C10 (svs : List SpawnConfig) (r : ℚ) (hne : svs ≠ [])
    (h0 : 0 ≤ r) (h1 : r < 1) :
    (∃ c ∈ svs, selectSpawnValue svs r = some c.value) ∧
    ((∃ i, i < svs.length ∧ r ≤ prefixSum svs (i + 1) ∧
      (∀ j, j < i → ¬(r ≤ prefixSum svs (j + 1))) ∧
      selectSpawnValue svs r =
        some ((svs.getD i { value := 0, probability := 0 }).value)) ∨
    ((∀ i, i < svs.length → ¬(r ≤ prefixSum svs (i + 1))) ∧
      selectSpawnValue svs r =
        some ((svs.headD { value := 0, probability := 0 }).value))) := by
  have hL := selectLoop_spec r svs 0
  simp only [zero_add] at hL
  rcases hL with ⟨i, hi, hle, hmin, heq⟩ | ⟨hall, heq⟩
  · have hval : selectSpawnValue svs r =
        some ((svs.getD i { value := 0, probability := 0 }).value) := by
      unfold selectSpawnValue
      rw [heq]
    refine ⟨⟨svs.getD i { value := 0, probability := 0 },
      getD_mem_of_lt svs i _ hi, hval⟩, Or.inl ⟨i, hi, hle, hmin, hval⟩⟩
  · have hval : selectSpawnValue svs r =
        some ((svs.headD { value := 0, probability := 0 }).value) := by
      unfold selectSpawnValue
      rw [heq]
      cases svs with
      | nil => exact absurd rfl hne
      | cons c rest => rfl
    refine ⟨⟨svs.headD { value := 0, probability := 0 }, ?_, hval⟩, Or.inr ⟨hall, hval⟩⟩
    cases svs with
    | nil => exact absurd rfl hne
    | cons c rest => exact List.mem_cons_self c rest

/-- Witness for C10 on a one-entry table. -/
theorem claim_C10_witness :
    (([{ value := 2, probability := 1 }] : List SpawnConfig) ≠ []) ∧
    ((0 : ℚ) ≤ 0) ∧ ((0 : ℚ) < 1) ∧
    ∃ c ∈ ([{ value := 2, probability := 1 }] : List SpawnConfig),
      selectSpawnValue [{ value := 2, probability := 1 }] 0 = some c.value :=
  ⟨by simp, le_refl 0, by norm_num,
    (claim_C10 [{ value := 2, probability := 1 }] 0 (by simp) (le_refl 0) (by norm_num)).1⟩

end Game2048
